import Mathlib

/-!
Shallow embedding of the database initialization / schema-and-index
reconciliation engine of `models.py` (function `initialize_database`,
the declared `collection_schemas`, the seed data, and the user helpers
`create_user`, `get_user_by_email`, `log_tool_usage`).

Modelling conventions:
* pymongo sort directions `ASCENDING` / `DESCENDING` become an inductive
  `Direction`.
* Python dicts of index options become association lists `OptMap`
  compared extensionally (`dictEqB`), mirroring Python `==` on dicts.
* The live database is a list of collections, each carrying its name,
  its index metadata (as returned by `index_information()`: a name, the
  ordered key list, and the remaining metadata entries such as `v`),
  and its documents.
* Write operations against the store are modelled as state transformers
  returning `Option LiveDb`; `none` is a store-side rejection.  MongoDB
  rejects `create_index` when an index with the same key pattern already
  exists with a different definition (IndexOptionsConflict), and
  `create_collection` when the collection already exists; these are the
  natural failure cases.  An additional failure oracle `Action → Bool`
  models environment failures (permission denial, network error) on any
  write, so that abort-on-failure behaviour can be stated.
* A run threads a state `St` holding the trace of emitted actions, the
  live database, and an `ok` flag; a Python exception corresponds to
  `ok := false`, after which nothing further executes (the exception
  propagates to the `except` block at the end of `initialize_database`,
  is logged, and re-raised).
-/

namespace Ficore

/-- pymongo sort direction: `ASCENDING = 1`, `DESCENDING = -1`. -/
inductive Direction where
  | ascending
  | descending
deriving DecidableEq, Repr

/-- An ordered index key specification: a list of (field, direction) pairs,
as in pymongo `[('email', ASCENDING)]`. -/
abbrev KeyTuple := List (String × Direction)

/-- A value stored in an index-metadata / index-options dictionary. -/
inductive OptVal where
  | b (x : Bool)
  | n (x : Nat)
  | s (x : String)
deriving DecidableEq, Repr

/-- A Python dict of index options / index metadata, as an association list. -/
abbrev OptMap := List (String × OptVal)

/-- First-match lookup in an option dictionary. -/
def lookupOpt (m : OptMap) (k : String) : Option OptVal :=
  (m.find? (fun p => decide (p.1 = k))).map (·.2)

/-- Python `==` on option dictionaries: extensional equality of lookups over
the keys present on either side. -/
def dictEqB (a b : OptMap) : Bool :=
  a.all (fun p => decide (lookupOpt b p.1 = some p.2)) &&
  b.all (fun p => decide (lookupOpt a p.1 = some p.2))

/-- `{k: v for k, v in existing_index_info.items() if k not in ['key', 'v', 'ns']}`
(models.py line 267).  The `key` entry is held separately in our
representation, so the filter here discards `v` and `ns`. -/
def stripMeta (m : OptMap) : OptMap :=
  m.filter (fun p => !(p.1 = "key" || p.1 = "v" || p.1 = "ns"))

/-- One declared index (models.py, the `indexes` entries of
`collection_schemas`): the dict's `'key'` entry as `key`, and all other
entries — `{k: v for k, v in index.items() if k != 'key'}` (line 262) — as
`options`. -/
structure IndexSpec where
  key : KeyTuple
  options : OptMap
deriving DecidableEq, Repr

/-- One declared collection of `collection_schemas` (models.py lines 83–252):
its name and its declared indexes.  The validator document is passed verbatim
to `create_collection` and never examined by the reconciliation logic, so it
is not carried in the embedding. -/
structure CollectionSpec where
  name : String
  indexes : List IndexSpec
deriving Repr

/-- The declared schema, models.py lines 83–252, in declaration order,
with each collection's index list in declaration order. -/
def collection_schemas : List CollectionSpec :=
  [ { name := "users"
    , indexes :=
      [ { key := [("email", .ascending)], options := [("unique", .b true)] }
      , { key := [("reset_token", .ascending)], options := [("sparse", .b true)] }
      , { key := [("role", .ascending)], options := [] } ] }
  , { name := "records"
    , indexes :=
      [ { key := [("user_id", .ascending), ("type", .ascending)], options := [] }
      , { key := [("created_at", .descending)], options := [] } ] }
  , { name := "cashflows"
    , indexes :=
      [ { key := [("user_id", .ascending), ("type", .ascending)], options := [] }
      , { key := [("created_at", .descending)], options := [] } ] }
  , { name := "inventory"
    , indexes :=
      [ { key := [("user_id", .ascending)], options := [] }
      , { key := [("item_name", .ascending)], options := [] } ] }
  , { name := "coin_transactions"
    , indexes :=
      [ { key := [("user_id", .ascending)], options := [] }
      , { key := [("date", .descending)], options := [] } ] }
  , { name := "audit_logs"
    , indexes :=
      [ { key := [("admin_id", .ascending)], options := [] }
      , { key := [("timestamp", .descending)], options := [] } ] } ]

/-! ### Seed data -/

/-- A course document of `SAMPLE_COURSES` (models.py lines 15–43). -/
structure Course where
  id : String
  title_key : String
  title_en : String
  title_ha : String
  description_en : String
  description_ha : String
  is_premium : Bool
deriving DecidableEq, Repr

/-- `SAMPLE_COURSES` (models.py lines 15–43). -/
def SAMPLE_COURSES : List Course :=
  [ { id := "budgeting_learning_101"
    , title_key := "learning_hub_course_budgeting101_title"
    , title_en := "Budgeting Learning 101"
    , title_ha := "Tsarin Kudi 101"
    , description_en := "Learn the basics of budgeting."
    , description_ha := "Koyon asalin tsarin kudi."
    , is_premium := false }
  , { id := "financial_quiz"
    , title_key := "learning_hub_course_financial_quiz_title"
    , title_en := "Financial Quiz"
    , title_ha := "Jarabawar Kudi"
    , description_en := "Test your financial knowledge."
    , description_ha := "Gwada ilimin ku na kudi."
    , is_premium := false }
  , { id := "savings_basics"
    , title_key := "learning_hub_course_savings_basics_title"
    , title_en := "Savings Basics"
    , title_ha := "Asalin Tattara Kudi"
    , description_en := "Understand how to save effectively."
    , description_ha := "Fahimci yadda ake tattara kudi yadda ya kamata."
    , is_premium := false } ]

/-- A tax-rate document of `sample_rates` (models.py lines 285–288); the
float rates 0.1 and 0.15 are represented exactly as rationals. -/
structure TaxRate where
  role : String
  min_income : Nat
  max_income : Nat
  rate : ℚ
  description : String
deriving DecidableEq, Repr

/-- `sample_rates` (models.py lines 285–288); descriptions are the
`trans(..., default=...)` default strings. -/
def sample_rates : List TaxRate :=
  [ { role := "personal", min_income := 0, max_income := 100000
    , rate := (1 : ℚ)/10, description := "10% tax for income up to 100,000" }
  , { role := "trader", min_income := 0, max_income := 500000
    , rate := (15 : ℚ)/100, description := "15% tax for turnover up to 500,000" } ]

/-- A payment-location document of `sample_locations` (models.py line 295);
the float coordinates are represented exactly as rationals. -/
structure PaymentLocation where
  name : String
  address : String
  contact : String
  lat : ℚ
  lng : ℚ
deriving DecidableEq, Repr

/-- `sample_locations` (models.py lines 294–296). -/
def sample_locations : List PaymentLocation :=
  [ { name := "Gombe State IRS Office", address := "123 Tax Street, Gombe"
    , contact := "+234 123 456 7890"
    , lat := (102896 : ℚ)/10000, lng := (111673 : ℚ)/10000 } ]

/-- A document in a live collection: either one of the seed shapes, or an
arbitrary pre-existing document (identified by a tag) for modelling non-empty
live collections. -/
inductive SeedDoc where
  | course (c : Course)
  | rate (r : TaxRate)
  | loc (l : PaymentLocation)
  | other (n : Nat)
deriving DecidableEq, Repr

/-! ### Live database state -/

/-- One entry of `index_information()` for a collection: the index name,
its ordered key list, and the remaining metadata entries (`v`, option
flags, ...). -/
structure LiveIndexInfo where
  name : String
  key : KeyTuple
  meta : OptMap
deriving DecidableEq, Repr

/-- One live collection: its name, its index metadata in the store's
enumeration order, and its documents. -/
structure LiveCollection where
  name : String
  indexes : List LiveIndexInfo
  docs : List SeedDoc
deriving DecidableEq, Repr

/-- The live database: collections in the store's enumeration order. -/
structure LiveDb where
  collections : List LiveCollection
deriving DecidableEq, Repr

/-- `db_instance.list_collection_names()` (models.py line 81). -/
def collNames (db : LiveDb) : List String := db.collections.map (·.name)

/-- Look a collection up by name (first match). -/
def getColl (db : LiveDb) (n : String) : Option LiveCollection :=
  db.collections.find? (fun c => decide (c.name = n))

/-- `db_instance[name].index_information()` (models.py line 259); a collection
that does not exist has no indexes. -/
def indexesOf (db : LiveDb) (n : String) : List LiveIndexInfo :=
  ((getColl db n).map (·.indexes)).getD []

/-- The documents of a collection; a collection that does not exist is empty
(`count_documents({}) == 0`). -/
def docsOf (db : LiveDb) (n : String) : List SeedDoc :=
  ((getColl db n).map (·.docs)).getD []

/-- The automatic `_id_` index MongoDB creates with every collection. -/
def idIndex : LiveIndexInfo :=
  { name := "_id_", key := [("_id", .ascending)], meta := [("v", .n 2)] }

/-- pymongo's generated index name: fields and directions joined by `_`. -/
def defaultIndexName (k : KeyTuple) : String :=
  String.intercalate "_"
    (k.map (fun p => p.1 ++ "_" ++ (match p.2 with
      | .ascending => "1"
      | .descending => "-1")))

/-- Append `L` to the index list of collection `n`, creating the collection
implicitly if absent (MongoDB behaviour). -/
def appendIndexesL : List LiveCollection → String → List LiveIndexInfo → List LiveCollection
  | [], n, L => [{ name := n, indexes := L, docs := [] }]
  | c :: cs, n, L =>
    if c.name = n then { c with indexes := c.indexes ++ L } :: cs
    else c :: appendIndexesL cs n L

/-- Append `L` to the documents of collection `n`, creating the collection
implicitly if absent (MongoDB behaviour). -/
def appendDocsL : List LiveCollection → String → List SeedDoc → List LiveCollection
  | [], n, L => [{ name := n, indexes := [], docs := L }]
  | c :: cs, n, L =>
    if c.name = n then { c with docs := c.docs ++ L } :: cs
    else c :: appendDocsL cs n L

/-- `db_instance.create_collection(name, validator=...)` (models.py line 256):
rejected by the store if the collection already exists; otherwise the new
collection appears with its automatic `_id_` index and no documents. -/
def applyCreateCollection (n : String) (db : LiveDb) : Option LiveDb :=
  if db.collections.any (fun c => decide (c.name = n)) then none
  else some ⟨db.collections ++ [{ name := n, indexes := [idIndex], docs := [] }]⟩

/-- `db_instance[coll].create_index(keys, **options)` (models.py line 273):
MongoDB rejects the creation when an index with the same key pattern already
exists (IndexOptionsConflict / name conflict on the generated name); otherwise
the new index is appended, its stored metadata being the version entry
followed by the requested options. -/
def newIndexInfo (keys : KeyTuple) (opts : OptMap) : LiveIndexInfo :=
  { name := defaultIndexName keys, key := keys, meta := ("v", .n 2) :: opts }

def applyCreateIndex (coll : String) (keys : KeyTuple) (opts : OptMap)
    (db : LiveDb) : Option LiveDb :=
  if (indexesOf db coll).any (fun li => decide (li.key = keys)) then none
  else some ⟨appendIndexesL db.collections coll [newIndexInfo keys opts]⟩

/-- `coll.insert_one(doc)` (models.py lines 278–279). -/
def applyInsertOne (coll : String) (d : SeedDoc) (db : LiveDb) : Option LiveDb :=
  some ⟨appendDocsL db.collections coll [d]⟩

/-- `coll.insert_many(docs)` (models.py lines 289, 297): one bulk call. -/
def applyInsertMany (coll : String) (ds : List SeedDoc) (db : LiveDb) : Option LiveDb :=
  some ⟨appendDocsL db.collections coll ds⟩

/-! ### Actions and execution -/

/-- The primitive operations `initialize_database` performs or logs, in the
order they happen; `skipIndex` is the "Index already exists on" log line
(models.py line 269). -/
inductive Action where
  | createCollection (name : String)
  | createIndex (coll : String) (keys : KeyTuple) (options : OptMap)
  | skipIndex (coll : String) (keys : KeyTuple)
  | insertOne (coll : String) (doc : SeedDoc)
  | insertMany (coll : String) (docs : List SeedDoc)
deriving DecidableEq, Repr

/-- Execution state of one `initialize_database` run: the trace of actions
attempted or logged so far, the live database, and whether no exception has
been raised yet. -/
structure St where
  trace : List Action
  db : LiveDb
  ok : Bool
deriving Repr

/-- Log-only action (a skip): appended to the trace, no store write. -/
def emit (s : St) (a : Action) : St :=
  if s.ok then { s with trace := s.trace ++ [a] } else s

/-- Attempt a write: the action is recorded; if the store rejects it
(`apply` is `none`) or the failure oracle fails it, the run aborts with the
state unchanged (the Python exception propagates). -/
def attemptOp (oracle : Action → Bool) (s : St) (a : Action)
    (apply : LiveDb → Option LiveDb) : St :=
  if s.ok then
    match apply s.db with
    | none => { trace := s.trace ++ [a], db := s.db, ok := false }
    | some db' =>
      if oracle a then { trace := s.trace ++ [a], db := s.db, ok := false }
      else { trace := s.trace ++ [a], db := db', ok := true }
  else s

/-- The per-index body of the loop at models.py lines 260–274, using the
per-collection snapshot `existing_indexes` taken at line 259: find the first
live index whose ordered key tuple equals the declared one (line 266); if its
remaining metadata (minus `key`, `v`, `ns`) equals the declared options the
index exists and is skipped (lines 267–270); otherwise — no key match, or a
key match with divergent options — `create_index(keys, **options)` is called
(lines 272–273). -/
def processIndexWith (oracle : Action → Bool) (snapshot : List LiveIndexInfo)
    (coll : String) (spec : IndexSpec) (s : St) : St :=
  match snapshot.find? (fun li => decide (li.key = spec.key)) with
  | some li =>
    if dictEqB (stripMeta li.meta) spec.options then
      emit s (.skipIndex coll spec.key)
    else
      attemptOp oracle s (.createIndex coll spec.key spec.options)
        (applyCreateIndex coll spec.key spec.options)
  | none =>
    attemptOp oracle s (.createIndex coll spec.key spec.options)
      (applyCreateIndex coll spec.key spec.options)

/-- models.py lines 255–257: create the collection when its name is absent
from the `collections` snapshot taken at line 81. -/
def createCollIfAbsent (oracle : Action → Bool) (names0 : List String)
    (n : String) (s : St) : St :=
  if names0.contains n then s
  else attemptOp oracle s (.createCollection n) (applyCreateCollection n)

/-- models.py lines 259–274: read `index_information()` once, then process
each declared index of the collection against that snapshot. -/
def processIndexes (oracle : Action → Bool) (coll : String)
    (specs : List IndexSpec) (s : St) : St :=
  specs.foldl (fun t spec => processIndexWith oracle (indexesOf s.db coll) coll spec t) s

/-- The per-collection body of the loop at models.py lines 254–274. -/
def processColl (oracle : Action → Bool) (names0 : List String)
    (c : CollectionSpec) (s : St) : St :=
  processIndexes oracle c.name c.indexes (createCollIfAbsent oracle names0 c.name s)

/-- The schema loop of models.py lines 81–274: snapshot the collection names
once, then process each declared collection in declaration order. -/
def schemaPhase (oracle : Action → Bool) (db : LiveDb) : St :=
  let names0 := collNames db
  collection_schemas.foldl (fun s c => processColl oracle names0 c s)
    { trace := [], db := db, ok := true }

/-- models.py lines 276–281: if `courses.count_documents({}) == 0`, insert
the sample courses one document at a time (`insert_one` in a `for` loop). -/
def seedCourses (oracle : Action → Bool) (s : St) : St :=
  if (docsOf s.db "courses").length = 0 then
    SAMPLE_COURSES.foldl (fun t c =>
      attemptOp oracle t (.insertOne "courses" (.course c))
        (applyInsertOne "courses" (.course c))) s
  else s

/-- models.py lines 283–290: if `tax_rates.count_documents({}) == 0`, insert
the sample rates with a single `insert_many`. -/
def seedTaxRates (oracle : Action → Bool) (s : St) : St :=
  if (docsOf s.db "tax_rates").length = 0 then
    attemptOp oracle s (.insertMany "tax_rates" (sample_rates.map .rate))
      (applyInsertMany "tax_rates" (sample_rates.map .rate))
  else s

/-- models.py lines 292–298: if `payment_locations.count_documents({}) == 0`,
insert the sample locations with a single `insert_many`. -/
def seedPayLocs (oracle : Action → Bool) (s : St) : St :=
  if (docsOf s.db "payment_locations").length = 0 then
    attemptOp oracle s (.insertMany "payment_locations" (sample_locations.map .loc))
      (applyInsertMany "payment_locations" (sample_locations.map .loc))
  else s

/-- The seeding code of models.py lines 276–298, in source order: courses are
inserted one document at a time when the count is zero; tax rates and payment
locations each by a single `insert_many` when their counts are zero. -/
def seedPhase (oracle : Action → Bool) (s : St) : St :=
  seedPayLocs oracle (seedTaxRates oracle (seedCourses oracle s))

/-- The body of the big `try` of `initialize_database` (models.py lines
78–298): schema reconciliation followed by seeding.  The trailing `except`
(lines 300–302) logs and re-raises, i.e. a run with `ok = false` aborts
startup. -/
def runInit (oracle : Action → Bool) (db : LiveDb) : St :=
  seedPhase oracle (schemaPhase oracle db)

/-- A run in a cooperating environment: the only failures are the store's
own rejections. -/
def reconcile (db : LiveDb) : St := runInit (fun _ => false) db

/-! ### Connection retry loop (models.py lines 62–76) -/

/-- Observable events of the retry loop: a ping attempt (0-based attempt
number) and a `time.sleep` of the given number of seconds. -/
inductive ConnEvent where
  | ping (attempt : Nat)
  | sleep (secs : Nat)
deriving DecidableEq, Repr

/-- `max_retries = 3` (models.py line 63). -/
def max_retries : Nat := 3

/-- `retry_delay = 1` (models.py line 64). -/
def retry_delay : Nat := 1

/-- The body of `for attempt in range(max_retries)` (models.py lines 67–76),
with `fuel` the number of remaining iterations: ping; on success break; on a
connection failure, if this was the last attempt raise, else sleep the fixed
`retry_delay` and continue.  `probe attempt = true` means the ping of that
attempt succeeds.  Returns the event trace and whether a connection was
established. -/
def connectGo (probe : Nat → Bool) (delay : Nat) : Nat → Nat → List ConnEvent × Bool
  | _, 0 => ([], false)
  | attempt, fuel + 1 =>
    if probe attempt then ([.ping attempt], true)
    else if fuel = 0 then ([.ping attempt], false)
    else
      let r := connectGo probe delay (attempt + 1) fuel
      (.ping attempt :: .sleep delay :: r.1, r.2)

/-- The retry loop of `initialize_database` (models.py lines 62–76):
`max_retries = 3`, `retry_delay = 1`; a `false` second component is the
`RuntimeError('MongoDB connection failed after max retries')` of line 75. -/
def connectRetry (probe : Nat → Bool) : List ConnEvent × Bool :=
  connectGo probe retry_delay 0 max_retries

/-- The whole of `initialize_database`: the retry loop, then — only if a
connection was established — the reconciliation-and-seeding body.  `none` in
the second component means startup aborted before any reconciliation. -/
def initDatabase (probe : Nat → Bool) (oracle : Action → Bool) (db : LiveDb) :
    List ConnEvent × Option St :=
  let c := connectRetry probe
  (c.1, if c.2 then some (runInit oracle db) else none)

/-! ### User helpers (models.py lines 304–420) -/

/-- The `User` class (models.py lines 304–315), with the fields its
constructor sets. -/
structure User where
  id : String
  email : String
  username : String
  role : String
  display_name : String
  is_admin : Bool
  setup_complete : Bool
  coin_balance : Nat
  language : String
  dark_mode : Bool
deriving DecidableEq, Repr

/-- Python `a or b` on an optional string, where `None` and `""` are falsy. -/
def pyOrS (a : Option String) (b : String) : String :=
  match a with
  | some s => if s = "" then b else s
  | none => b

/-- Python `str.lower()`, character by character.  (`String.toLower` in the
Lean library is definitionally equal but is defined through a non-structural
recursion, so this structural form is used instead.) -/
def lowerStr (s : String) : String := ⟨s.data.map Char.toLower⟩

/-- `email.split('@')[0]`. -/
def localPart (e : String) : String := (e.splitOn "@").headD ""

/-- `User.__init__` (models.py lines 305–315): `username = username or
display_name or email.split('@')[0]`; `display_name = display_name or
self.username`. -/
def mkUser (id email : String) (display_name : Option String) (role : String)
    (username : Option String) (is_admin setup_complete : Bool)
    (coin_balance : Nat) (language : String) (dark_mode : Bool) : User :=
  let uname := pyOrS username (pyOrS display_name (localPart email))
  { id := id, email := email, username := uname, role := role
  , display_name := pyOrS display_name uname
  , is_admin := is_admin, setup_complete := setup_complete
  , coin_balance := coin_balance, language := language, dark_mode := dark_mode }

/-- A document of the `users` collection, with the fields `create_user`
writes (models.py lines 341–356).  The opaque nested detail dicts
(`business_details`, `personal_details`, `agent_details`) are not examined by
any modelled operation and are not carried. -/
structure UserDoc where
  id : String
  email : String
  password : String
  role : String
  display_name : String
  is_admin : Bool
  setup_complete : Bool
  coin_balance : Nat
  language : String
  dark_mode : Bool
  created_at : Nat
deriving DecidableEq, Repr

/-- The input dict `user_data` of `create_user`; absent keys are `none`. -/
structure UserData where
  email : String
  username : Option String
  password : Option String
  password_hash : Option String
  role : Option String
  display_name : Option String
  is_admin : Option Bool
  setup_complete : Option Bool
  coin_balance : Option Nat
  lang : Option String
  dark_mode : Option Bool
  created_at : Option Nat
deriving Repr

/-- `create_user` (models.py lines 335–378) over the `users` collection,
modelled as the list of its documents.  `hash` stands for
`generate_password_hash`; `now` for `datetime.utcnow()`.  `insert_one`
raises `DuplicateKeyError` when the `_id` already exists or the unique
`email` index (declared in `collection_schemas`) is violated; `create_user`
turns that into a `ValueError` (line 375), modelled as `Except.error`.
A missing password and password hash is the `KeyError` on
`user_data['password_hash']`, re-raised by the generic handler. -/
def create_user (hash : String → String) (now : Nat) (users : List UserDoc)
    (ud : UserData) : Except String (User × List UserDoc) :=
  let user_id := lowerStr (ud.username.getD (localPart ud.email))
  let ph := match ud.password with
    | some p => some (hash p)
    | none => ud.password_hash
  match ph with
  | none => .error "KeyError: password_hash"
  | some password =>
    let doc : UserDoc :=
      { id := user_id
      , email := lowerStr ud.email
      , password := password
      , role := ud.role.getD "personal"
      , display_name := ud.display_name.getD user_id
      , is_admin := ud.is_admin.getD false
      , setup_complete := ud.setup_complete.getD false
      , coin_balance := ud.coin_balance.getD 10
      , language := ud.lang.getD "en"
      , dark_mode := ud.dark_mode.getD false
      , created_at := ud.created_at.getD now }
    if users.any (fun d => decide (d.id = user_id) || decide (d.email = doc.email)) then
      .error "User with this email or username already exists"
    else
      .ok
        ( mkUser user_id doc.email (some doc.display_name) doc.role
            (some user_id) doc.is_admin doc.setup_complete doc.coin_balance
            doc.language doc.dark_mode
        , users ++ [doc] )

/-- `get_user_by_email` (models.py lines 380–399): `find_one({'email':
email.lower()})` over the `users` collection, building a `User` from the
first matching document. -/
def get_user_by_email (users : List UserDoc) (email : String) : Option User :=
  (users.find? (fun d => decide (d.email = lowerStr email))).map (fun d =>
    mkUser d.id d.email (some d.display_name) d.role (some d.id)
      d.is_admin d.setup_complete d.coin_balance d.language d.dark_mode)

/-! ### log_tool_usage (models.py lines 510–522) -/

/-- A document of the `tool_usage` collection. -/
structure ToolUsageDoc where
  tool_name : String
  user_id : Option String
  session_id : Option String
  action : Option String
  timestamp : Nat
deriving DecidableEq, Repr

/-- The fallible `db.tool_usage.insert_one(usage_data)` (models.py line 519):
`fails = true` models any database failure during the insert. -/
def insertToolUsage (fails : Bool) (docs : List ToolUsageDoc)
    (doc : ToolUsageDoc) : Except String (List ToolUsageDoc) :=
  if fails then .error "database failure" else .ok (docs ++ [doc])

/-- `log_tool_usage` (models.py lines 510–522): builds the usage record and
inserts it; the bare `except Exception` catches any failure, logs it, and
falls through, so the function always returns normally — its result is the
(possibly unchanged) collection, never an error. -/
def log_tool_usage (fails : Bool) (docs : List ToolUsageDoc)
    (tool_name : String) (user_id session_id action : Option String)
    (now : Nat) : List ToolUsageDoc :=
  let usage_data : ToolUsageDoc :=
    { tool_name := tool_name, user_id := user_id, session_id := session_id
    , action := action, timestamp := now }
  match insertToolUsage fails docs usage_data with
  | .ok docs' => docs'
  | .error _ => docs

/-! ### Basic execution lemmas -/

theorem emit_not_ok {s : St} (h : s.ok = false) (a : Action) : emit s a = s := by
  simp [emit, h]

theorem emit_ok {s : St} (h : s.ok = true) (a : Action) :
    emit s a = { s with trace := s.trace ++ [a] } := by
  simp [emit, h]

theorem attemptOp_not_ok {s : St} (h : s.ok = false) (oracle : Action → Bool)
    (a : Action) (f : LiveDb → Option LiveDb) : attemptOp oracle s a f = s := by
  simp [attemptOp, h]

/-- Success characterization of one write attempt. -/
theorem attemptOp_ok_true {oracle : Action → Bool} {s : St} {a : Action}
    {f : LiveDb → Option LiveDb} (h : (attemptOp oracle s a f).ok = true) :
    s.ok = true ∧ oracle a = false ∧ f s.db = some (attemptOp oracle s a f).db ∧
    attemptOp oracle s a f =
      { trace := s.trace ++ [a], db := (attemptOp oracle s a f).db, ok := true } := by
  by_cases hs : s.ok = true
  · unfold attemptOp at *
    simp only [hs, if_true] at *
    cases hf : f s.db with
    | none => simp [hf] at h
    | some db' =>
      simp only [hf] at h ⊢
      by_cases ho : oracle a = true
      · simp [ho] at h
      · simp only [eq_false_of_ne_true ho, Bool.false_eq_true, if_false]
        simp [eq_false_of_ne_true ho]
  · rw [attemptOp_not_ok (eq_false_of_ne_true hs)] at h
    exact absurd h hs

/-- A failed write attempt leaves the database unchanged and appends exactly
the attempted action. -/
theorem attemptOp_fail {oracle : Action → Bool} {s : St} {a : Action}
    {f : LiveDb → Option LiveDb} (hs : s.ok = true)
    (h : (attemptOp oracle s a f).ok = false) :
    attemptOp oracle s a f = { trace := s.trace ++ [a], db := s.db, ok := false } := by
  unfold attemptOp at *
  simp only [hs, if_true] at *
  cases hf : f s.db with
  | none => simp [hf]
  | some db' =>
    simp only [hf] at h ⊢
    by_cases ho : oracle a = true
    · simp [ho]
    · simp [eq_false_of_ne_true ho] at h

theorem processIndexWith_not_ok {s : St} (h : s.ok = false)
    (oracle : Action → Bool) (snap : List LiveIndexInfo) (coll : String)
    (spec : IndexSpec) : processIndexWith oracle snap coll spec s = s := by
  unfold processIndexWith
  cases hf : snap.find? (fun li => decide (li.key = spec.key)) with
  | none => exact attemptOp_not_ok h ..
  | some li =>
    by_cases hd : dictEqB (stripMeta li.meta) spec.options
    · simp only [hd, if_true]; exact emit_not_ok h _
    · simp only [hd, Bool.false_eq_true, if_false]; exact attemptOp_not_ok h ..

theorem foldIndexes_not_ok {s : St} (h : s.ok = false) (oracle : Action → Bool)
    (snap : List LiveIndexInfo) (coll : String) (specs : List IndexSpec) :
    specs.foldl (fun t spec => processIndexWith oracle snap coll spec t) s = s := by
  induction specs with
  | nil => rfl
  | cons spec rest ih =>
    simp only [List.foldl_cons, processIndexWith_not_ok h]
    exact ih

theorem createCollIfAbsent_not_ok {s : St} (h : s.ok = false)
    (oracle : Action → Bool) (names0 : List String) (n : String) :
    createCollIfAbsent oracle names0 n s = s := by
  unfold createCollIfAbsent
  by_cases hm : names0.contains n = true
  · rw [if_pos hm]
  · rw [if_neg hm, attemptOp_not_ok h]

theorem processColl_not_ok {s : St} (h : s.ok = false) (oracle : Action → Bool)
    (names0 : List String) (c : CollectionSpec) :
    processColl oracle names0 c s = s := by
  unfold processColl processIndexes
  rw [createCollIfAbsent_not_ok h]
  exact foldIndexes_not_ok h ..

theorem seedCourses_not_ok {s : St} (h : s.ok = false) (oracle : Action → Bool) :
    seedCourses oracle s = s := by
  unfold seedCourses
  have hc : SAMPLE_COURSES.foldl (fun t c =>
      attemptOp oracle t (.insertOne "courses" (.course c))
        (applyInsertOne "courses" (.course c))) s = s := by
    simp [SAMPLE_COURSES, attemptOp_not_ok h]
  by_cases h1 : (docsOf s.db "courses").length = 0 <;> simp [h1, hc]

theorem seedTaxRates_not_ok {s : St} (h : s.ok = false) (oracle : Action → Bool) :
    seedTaxRates oracle s = s := by
  unfold seedTaxRates
  by_cases h1 : (docsOf s.db "tax_rates").length = 0 <;>
    simp [h1, attemptOp_not_ok h]

theorem seedPayLocs_not_ok {s : St} (h : s.ok = false) (oracle : Action → Bool) :
    seedPayLocs oracle s = s := by
  unfold seedPayLocs
  by_cases h1 : (docsOf s.db "payment_locations").length = 0 <;>
    simp [h1, attemptOp_not_ok h]

theorem seedPhase_not_ok {s : St} (h : s.ok = false) (oracle : Action → Bool) :
    seedPhase oracle s = s := by
  unfold seedPhase
  rw [seedCourses_not_ok h, seedTaxRates_not_ok h, seedPayLocs_not_ok h]

/-! ### Observation lemmas for the store operations -/

theorem find?_name_cons (c : LiveCollection) (cs : List LiveCollection) (m : String) :
    List.find? (fun x => decide (x.name = m)) (c :: cs) =
    if c.name = m then some c else List.find? (fun x => decide (x.name = m)) cs := by
  by_cases h : c.name = m
  · simp [List.find?_cons_of_pos, h]
  · simp [List.find?_cons_of_neg, h]

theorem indexesOf_appendIndexesL_self (l : List LiveCollection) (n : String)
    (L : List LiveIndexInfo) :
    indexesOf ⟨appendIndexesL l n L⟩ n = indexesOf ⟨l⟩ n ++ L := by
  induction l with
  | nil => simp [appendIndexesL, indexesOf, getColl, List.find?]
  | cons c cs ih =>
    by_cases hc : c.name = n
    · simp [appendIndexesL, hc, indexesOf, getColl, List.find?_cons_of_pos]
    · simp only [appendIndexesL, hc, if_false]
      simpa [indexesOf, getColl, List.find?_cons_of_neg, hc] using ih

theorem indexesOf_appendIndexesL_other (l : List LiveCollection) {n m : String}
    (hm : m ≠ n) (L : List LiveIndexInfo) :
    indexesOf ⟨appendIndexesL l n L⟩ m = indexesOf ⟨l⟩ m := by
  induction l with
  | nil => simp [appendIndexesL, indexesOf, getColl, List.find?, Ne.symm hm]
  | cons c cs ih =>
    by_cases hc : c.name = n
    · have hcm : ¬ c.name = m := by rw [hc]; exact Ne.symm hm
      simp [appendIndexesL, hc, indexesOf, getColl, find?_name_cons, hcm, Ne.symm hm]
    · simp only [appendIndexesL, hc, if_false]
      by_cases hcm : c.name = m
      · simp [indexesOf, getColl, find?_name_cons, hcm]
      · simpa [indexesOf, getColl, find?_name_cons, hcm] using ih

theorem docsOf_appendIndexesL (l : List LiveCollection) (n m : String)
    (L : List LiveIndexInfo) :
    docsOf ⟨appendIndexesL l n L⟩ m = docsOf ⟨l⟩ m := by
  induction l with
  | nil =>
    by_cases hm : n = m <;>
      simp [appendIndexesL, docsOf, getColl, List.find?, hm]
  | cons c cs ih =>
    by_cases hc : c.name = n
    · by_cases hcm : c.name = m <;>
        simp [appendIndexesL, hc, docsOf, getColl, find?_name_cons, hcm,
          hc ▸ hcm]
    · simp only [appendIndexesL, hc, if_false]
      by_cases hcm : c.name = m
      · simp [docsOf, getColl, find?_name_cons, hcm]
      · simpa [docsOf, getColl, find?_name_cons, hcm] using ih

theorem collNames_appendIndexesL_mem (l : List LiveCollection) (n : String)
    (L : List LiveIndexInfo) {m : String} (h : m ∈ collNames ⟨l⟩) :
    m ∈ collNames ⟨appendIndexesL l n L⟩ := by
  induction l with
  | nil => simp [collNames] at h
  | cons c cs ih =>
    by_cases hc : c.name = n
    · simpa [appendIndexesL, hc, collNames] using h
    · simp only [collNames, List.map_cons, List.mem_cons] at h
      rcases h with h | h
      · simp [appendIndexesL, hc, collNames, h]
      · simp only [appendIndexesL, hc, if_false, collNames, List.map_cons,
          List.mem_cons]
        exact Or.inr (ih h)

theorem docsOf_appendDocsL_self (l : List LiveCollection) (n : String)
    (L : List SeedDoc) :
    docsOf ⟨appendDocsL l n L⟩ n = docsOf ⟨l⟩ n ++ L := by
  induction l with
  | nil => simp [appendDocsL, docsOf, getColl, List.find?]
  | cons c cs ih =>
    by_cases hc : c.name = n
    · simp [appendDocsL, hc, docsOf, getColl, List.find?_cons_of_pos]
    · simp only [appendDocsL, hc, if_false]
      simpa [docsOf, getColl, List.find?_cons_of_neg, hc] using ih

theorem docsOf_appendDocsL_other (l : List LiveCollection) {n m : String}
    (hm : m ≠ n) (L : List SeedDoc) :
    docsOf ⟨appendDocsL l n L⟩ m = docsOf ⟨l⟩ m := by
  induction l with
  | nil => simp [appendDocsL, docsOf, getColl, List.find?, Ne.symm hm]
  | cons c cs ih =>
    by_cases hc : c.name = n
    · have hcm : ¬ c.name = m := by rw [hc]; exact Ne.symm hm
      simp [appendDocsL, hc, docsOf, getColl, find?_name_cons, hcm, Ne.symm hm]
    · simp only [appendDocsL, hc, if_false]
      by_cases hcm : c.name = m
      · simp [docsOf, getColl, find?_name_cons, hcm]
      · simpa [docsOf, getColl, find?_name_cons, hcm] using ih

theorem indexesOf_appendDocsL (l : List LiveCollection) (n m : String)
    (L : List SeedDoc) :
    indexesOf ⟨appendDocsL l n L⟩ m = indexesOf ⟨l⟩ m := by
  induction l with
  | nil =>
    by_cases hm : n = m <;>
      simp [appendDocsL, indexesOf, getColl, List.find?, hm]
  | cons c cs ih =>
    by_cases hc : c.name = n
    · by_cases hcm : c.name = m <;>
        simp [appendDocsL, hc, indexesOf, getColl, find?_name_cons, hcm,
          hc ▸ hcm]
    · simp only [appendDocsL, hc, if_false]
      by_cases hcm : c.name = m
      · simp [indexesOf, getColl, find?_name_cons, hcm]
      · simpa [indexesOf, getColl, find?_name_cons, hcm] using ih

theorem collNames_appendDocsL_mem (l : List LiveCollection) (n : String)
    (L : List SeedDoc) {m : String} (h : m ∈ collNames ⟨l⟩) :
    m ∈ collNames ⟨appendDocsL l n L⟩ := by
  induction l with
  | nil => simp [collNames] at h
  | cons c cs ih =>
    by_cases hc : c.name = n
    · simpa [appendDocsL, hc, collNames] using h
    · simp only [collNames, List.map_cons, List.mem_cons] at h
      rcases h with h | h
      · simp [appendDocsL, hc, collNames, h]
      · simp only [appendDocsL, hc, if_false, collNames, List.map_cons,
          List.mem_cons]
        exact Or.inr (ih h)

/-! ### Growth of the live state -/

/-- `db'` extends `db`: reconciliation only ever appends — it never drops or
reorders collections, indexes or documents. -/
def DbExtends (db db' : LiveDb) : Prop :=
  (∀ n, ∃ e, indexesOf db' n = indexesOf db n ++ e) ∧
  (∀ n, ∃ e, docsOf db' n = docsOf db n ++ e) ∧
  (∀ n, n ∈ collNames db → n ∈ collNames db')

theorem DbExtends.refl (db : LiveDb) : DbExtends db db :=
  ⟨fun n => ⟨[], by simp⟩, fun n => ⟨[], by simp⟩, fun _ h => h⟩

theorem DbExtends.trans {a b c : LiveDb} (h1 : DbExtends a b) (h2 : DbExtends b c) :
    DbExtends a c := by
  refine ⟨fun n => ?_, fun n => ?_, fun n hn => h2.2.2 n (h1.2.2 n hn)⟩
  · obtain ⟨e1, he1⟩ := h1.1 n
    obtain ⟨e2, he2⟩ := h2.1 n
    exact ⟨e1 ++ e2, by rw [he2, he1, List.append_assoc]⟩
  · obtain ⟨e1, he1⟩ := h1.2.1 n
    obtain ⟨e2, he2⟩ := h2.2.1 n
    exact ⟨e1 ++ e2, by rw [he2, he1, List.append_assoc]⟩

theorem getColl_eq_none_of_any_false {db : LiveDb} {n : String}
    (h : db.collections.any (fun c => decide (c.name = n)) = false) :
    getColl db n = none := by
  rw [getColl, List.find?_eq_none]
  intro c hc
  have := List.any_eq_false.mp h c hc
  simpa using this

theorem getColl_append_of_ne {db : LiveDb} {c : LiveCollection} {m : String}
    (h : c.name ≠ m) : getColl ⟨db.collections ++ [c]⟩ m = getColl db m := by
  simp only [getColl, List.find?_append]
  cases hf : List.find? (fun x => decide (x.name = m)) db.collections with
  | some x => simp
  | none => simp [List.find?, h]

theorem getColl_append_self {db : LiveDb} {c : LiveCollection}
    (h : getColl db c.name = none) :
    getColl ⟨db.collections ++ [c]⟩ c.name = some c := by
  simp only [getColl, List.find?_append] at *
  rw [h]
  simp [List.find?]

theorem applyCreateCollection_extends {n : String} {db db' : LiveDb}
    (h : applyCreateCollection n db = some db') : DbExtends db db' := by
  unfold applyCreateCollection at h
  by_cases ha : db.collections.any (fun c => decide (c.name = n)) = true
  · simp [ha] at h
  · have ha' := eq_false_of_ne_true ha
    simp only [ha', Bool.false_eq_true, if_false, Option.some.injEq] at h
    subst h
    have hg : getColl db n = none := getColl_eq_none_of_any_false ha'
    refine ⟨fun m => ?_, fun m => ?_, fun m hm => ?_⟩
    · by_cases hmn : m = n
      · subst hmn
        refine ⟨[idIndex], ?_⟩
        rw [indexesOf, indexesOf, hg,
          getColl_append_self (c := { name := m, indexes := [idIndex], docs := [] }) hg]
        simp
      · refine ⟨[], ?_⟩
        rw [indexesOf, indexesOf,
          getColl_append_of_ne (show ({ name := n, indexes := [idIndex], docs := [] } : LiveCollection).name ≠ m from fun hh => hmn (hh.symm))]
        simp
    · by_cases hmn : m = n
      · subst hmn
        refine ⟨[], ?_⟩
        rw [docsOf, docsOf, hg,
          getColl_append_self (c := { name := m, indexes := [idIndex], docs := [] }) hg]
        simp
      · refine ⟨[], ?_⟩
        rw [docsOf, docsOf,
          getColl_append_of_ne (show ({ name := n, indexes := [idIndex], docs := [] } : LiveCollection).name ≠ m from fun hh => hmn (hh.symm))]
        simp
    · simp only [collNames, List.map_append, List.mem_append]
      exact Or.inl hm

theorem applyCreateIndex_db {coll : String} {keys : KeyTuple} {opts : OptMap}
    {db db' : LiveDb} (h : applyCreateIndex coll keys opts db = some db') :
    (indexesOf db coll).any (fun li => decide (li.key = keys)) = false ∧
    db' = ⟨appendIndexesL db.collections coll [newIndexInfo keys opts]⟩ := by
  unfold applyCreateIndex at h
  by_cases ha : (indexesOf db coll).any (fun li => decide (li.key = keys)) = true
  · simp [ha] at h
  · have ha' := eq_false_of_ne_true ha
    simp only [ha', Bool.false_eq_true, if_false, Option.some.injEq] at h
    exact ⟨ha', h.symm⟩

theorem applyCreateIndex_extends {coll : String} {keys : KeyTuple} {opts : OptMap}
    {db db' : LiveDb} (h : applyCreateIndex coll keys opts db = some db') :
    DbExtends db db' := by
  obtain ⟨-, hdb⟩ := applyCreateIndex_db h
  subst hdb
  have hdbeq : (⟨db.collections⟩ : LiveDb) = db := rfl
  refine ⟨fun m => ?_, fun m => ⟨[], ?_⟩, fun m hm => ?_⟩
  · by_cases hmc : m = coll
    · subst hmc
      refine ⟨[newIndexInfo keys opts], ?_⟩
      rw [show indexesOf db m = indexesOf ⟨db.collections⟩ m from rfl,
        indexesOf_appendIndexesL_self]
    · refine ⟨[], ?_⟩
      rw [indexesOf_appendIndexesL_other _ hmc, hdbeq]
      simp
  · rw [docsOf_appendIndexesL, hdbeq]
    simp
  · exact collNames_appendIndexesL_mem _ _ _ (hdbeq ▸ hm)

theorem applyInsertOne_extends {coll : String} {d : SeedDoc} {db db' : LiveDb}
    (h : applyInsertOne coll d db = some db') : DbExtends db db' := by
  unfold applyInsertOne at h
  simp only [Option.some.injEq] at h
  subst h
  have hdbeq : (⟨db.collections⟩ : LiveDb) = db := rfl
  refine ⟨fun m => ⟨[], ?_⟩, fun m => ?_, fun m hm => ?_⟩
  · rw [indexesOf_appendDocsL, hdbeq]; simp
  · by_cases hmc : m = coll
    · subst hmc
      refine ⟨[d], ?_⟩
      rw [show docsOf db m = docsOf ⟨db.collections⟩ m from rfl, docsOf_appendDocsL_self]
    · refine ⟨[], ?_⟩
      rw [docsOf_appendDocsL_other _ hmc, hdbeq]; simp
  · exact collNames_appendDocsL_mem _ _ _ (hdbeq ▸ hm)

theorem applyInsertMany_extends {coll : String} {ds : List SeedDoc} {db db' : LiveDb}
    (h : applyInsertMany coll ds db = some db') : DbExtends db db' := by
  unfold applyInsertMany at h
  simp only [Option.some.injEq] at h
  subst h
  have hdbeq : (⟨db.collections⟩ : LiveDb) = db := rfl
  refine ⟨fun m => ⟨[], ?_⟩, fun m => ?_, fun m hm => ?_⟩
  · rw [indexesOf_appendDocsL, hdbeq]; simp
  · by_cases hmc : m = coll
    · subst hmc
      refine ⟨ds, ?_⟩
      rw [show docsOf db m = docsOf ⟨db.collections⟩ m from rfl, docsOf_appendDocsL_self]
    · refine ⟨[], ?_⟩
      rw [docsOf_appendDocsL_other _ hmc, hdbeq]; simp
  · exact collNames_appendDocsL_mem _ _ _ (hdbeq ▸ hm)

/-! ### What a successful run establishes -/

/-- The live database satisfies a declared index: the first live index of the
collection with the declared key tuple exists and its stripped metadata
equals the declared options. -/
def IndexSatisfied (db : LiveDb) (coll : String) (spec : IndexSpec) : Prop :=
  ∃ li, (indexesOf db coll).find? (fun x => decide (x.key = spec.key)) = some li ∧
    dictEqB (stripMeta li.meta) spec.options = true

/-- A declared index whose options dictionary contains none of the reserved
metadata keys and is self-equal under dictionary comparison (true of every
index declared in `collection_schemas`). -/
def GoodSpec (spec : IndexSpec) : Prop :=
  stripMeta spec.options = spec.options ∧ dictEqB spec.options spec.options = true

instance (spec : IndexSpec) : Decidable (GoodSpec spec) := by
  unfold GoodSpec; infer_instance

theorem find?_eq_some_of_prefix {α} {l e : List α} {p : α → Bool} {x : α}
    (h : l.find? p = some x) : (l ++ e).find? p = some x := by
  rw [List.find?_append, h]; rfl

theorem find?_eq_none_of_any_false {α} {l : List α} {p : α → Bool}
    (h : l.any p = false) : l.find? p = none := by
  rw [List.find?_eq_none]
  intro x hx hpx
  have := List.any_eq_false.mp h x hx
  exact this hpx

theorem IndexSatisfied.mono {db db' : LiveDb} {coll : String} {spec : IndexSpec}
    (hx : DbExtends db db') (h : IndexSatisfied db coll spec) :
    IndexSatisfied db' coll spec := by
  obtain ⟨li, hfind, hd⟩ := h
  obtain ⟨e, he⟩ := hx.1 coll
  exact ⟨li, he ▸ find?_eq_some_of_prefix hfind, hd⟩

theorem stripMeta_v_cons (x : OptVal) (m : OptMap) :
    stripMeta (("v", x) :: m) = stripMeta m := by
  simp [stripMeta]

theorem emit_db (s : St) (a : Action) : (emit s a).db = s.db := by
  unfold emit; split <;> rfl

theorem emit_keeps_ok (s : St) (a : Action) : (emit s a).ok = s.ok := by
  unfold emit; split <;> simp_all

/-- What one successful per-index step guarantees: the run was live before,
the database only grew, and afterwards the declared index is satisfied. -/
theorem processIndexWith_ok_post {oracle : Action → Bool}
    {snap : List LiveIndexInfo} {coll : String} {spec : IndexSpec} {s : St}
    (hok : (processIndexWith oracle snap coll spec s).ok = true)
    (hpre : ∃ e, indexesOf s.db coll = snap ++ e) (hg : GoodSpec spec) :
    s.ok = true ∧
    DbExtends s.db (processIndexWith oracle snap coll spec s).db ∧
    IndexSatisfied (processIndexWith oracle snap coll spec s).db coll spec := by
  unfold processIndexWith at *
  cases hf : snap.find? (fun li => decide (li.key = spec.key)) with
  | some li =>
    rw [hf] at hok
    dsimp only at hok ⊢
    by_cases hd : dictEqB (stripMeta li.meta) spec.options = true
    · simp only [hd, if_true] at hok ⊢
      refine ⟨(emit_keeps_ok s _) ▸ hok, emit_db s _ ▸ DbExtends.refl _, ?_⟩
      obtain ⟨e, he⟩ := hpre
      rw [emit_db]
      exact ⟨li, he ▸ find?_eq_some_of_prefix hf, hd⟩
    · simp only [eq_false_of_ne_true hd, Bool.false_eq_true, if_false] at hok ⊢
      obtain ⟨hs, -, happ, -⟩ := attemptOp_ok_true hok
      obtain ⟨hany, hdb⟩ := applyCreateIndex_db happ
      refine ⟨hs, applyCreateIndex_extends happ, ?_⟩
      rw [hdb]
      refine ⟨newIndexInfo spec.key spec.options, ?_, ?_⟩
      · rw [show indexesOf ⟨appendIndexesL s.db.collections coll [newIndexInfo spec.key spec.options]⟩ coll
            = indexesOf ⟨s.db.collections⟩ coll ++ [newIndexInfo spec.key spec.options]
          from indexesOf_appendIndexesL_self ..]
        rw [show indexesOf (⟨s.db.collections⟩ : LiveDb) coll = indexesOf s.db coll from rfl]
        rw [List.find?_append, find?_eq_none_of_any_false hany]
        simp [newIndexInfo, List.find?]
      · rw [show (newIndexInfo spec.key spec.options).meta = ("v", .n 2) :: spec.options from rfl,
          stripMeta_v_cons, hg.1]
        exact hg.2
  | none =>
    rw [hf] at hok
    dsimp only at hok ⊢
    obtain ⟨hs, -, happ, -⟩ := attemptOp_ok_true hok
    obtain ⟨hany, hdb⟩ := applyCreateIndex_db happ
    refine ⟨hs, applyCreateIndex_extends happ, ?_⟩
    rw [hdb]
    refine ⟨newIndexInfo spec.key spec.options, ?_, ?_⟩
    · rw [show indexesOf ⟨appendIndexesL s.db.collections coll [newIndexInfo spec.key spec.options]⟩ coll
          = indexesOf ⟨s.db.collections⟩ coll ++ [newIndexInfo spec.key spec.options]
        from indexesOf_appendIndexesL_self ..]
      rw [show indexesOf (⟨s.db.collections⟩ : LiveDb) coll = indexesOf s.db coll from rfl]
      rw [List.find?_append, find?_eq_none_of_any_false hany]
      simp [newIndexInfo, List.find?]
    · rw [show (newIndexInfo spec.key spec.options).meta = ("v", .n 2) :: spec.options from rfl,
        stripMeta_v_cons, hg.1]
      exact hg.2

/-- Postcondition of a successful pass over one collection's declared index
list. -/
theorem foldIndexes_ok_post {oracle : Action → Bool} {snap : List LiveIndexInfo}
    {coll : String} :
    ∀ (specs : List IndexSpec) (s : St),
    ((specs.foldl (fun t spec => processIndexWith oracle snap coll spec t) s).ok = true) →
    (∀ spec ∈ specs, GoodSpec spec) →
    (∃ e, indexesOf s.db coll = snap ++ e) →
    s.ok = true ∧
    DbExtends s.db (specs.foldl (fun t spec => processIndexWith oracle snap coll spec t) s).db ∧
    ∀ spec ∈ specs,
      IndexSatisfied (specs.foldl (fun t spec => processIndexWith oracle snap coll spec t) s).db coll spec := by
  intro specs
  induction specs with
  | nil =>
    intro s hok _ _
    exact ⟨hok, DbExtends.refl _, by simp⟩
  | cons spec rest ih =>
    intro s hok hg hpre
    rw [List.foldl_cons] at hok ⊢
    have hok1 : (processIndexWith oracle snap coll spec s).ok = true := by
      by_contra hc
      rw [foldIndexes_not_ok (eq_false_of_ne_true hc)] at hok
      exact hc hok
    obtain ⟨hs, hx1, hsat1⟩ :=
      processIndexWith_ok_post hok1 hpre (hg spec (by simp))
    have hpre' : ∃ e, indexesOf (processIndexWith oracle snap coll spec s).db coll = snap ++ e := by
      obtain ⟨e, he⟩ := hpre
      obtain ⟨e2, he2⟩ := hx1.1 coll
      exact ⟨e ++ e2, by rw [he2, he, List.append_assoc]⟩
    obtain ⟨-, hx2, hsat2⟩ :=
      ih (processIndexWith oracle snap coll spec s) hok
        (fun q hq => hg q (by simp [hq])) hpre'
    refine ⟨hs, hx1.trans hx2, ?_⟩
    intro q hq
    rcases List.mem_cons.mp hq with h | h
    · subst h
      exact hsat1.mono hx2
    · exact hsat2 q h

theorem applyCreateCollection_mem {n : String} {db db' : LiveDb}
    (h : applyCreateCollection n db = some db') : n ∈ collNames db' := by
  unfold applyCreateCollection at h
  by_cases ha : db.collections.any (fun c => decide (c.name = n)) = true
  · simp [ha] at h
  · simp only [eq_false_of_ne_true ha, Bool.false_eq_true, if_false,
      Option.some.injEq] at h
    subst h
    simp [collNames]

/-- Postcondition of a successful creation-if-absent step. -/
theorem createCollIfAbsent_ok_post {oracle : Action → Bool} {names0 : List String}
    {n : String} {s : St}
    (hok : (createCollIfAbsent oracle names0 n s).ok = true)
    (hn : ∀ m ∈ names0, m ∈ collNames s.db) :
    s.ok = true ∧
    DbExtends s.db (createCollIfAbsent oracle names0 n s).db ∧
    n ∈ collNames (createCollIfAbsent oracle names0 n s).db := by
  unfold createCollIfAbsent at *
  by_cases hm : names0.contains n = true
  · rw [if_pos hm] at hok ⊢
    exact ⟨hok, DbExtends.refl _, hn n (List.mem_of_elem_eq_true hm)⟩
  · rw [if_neg hm] at hok ⊢
    obtain ⟨hs, -, happ, -⟩ := attemptOp_ok_true hok
    exact ⟨hs, applyCreateCollection_extends happ, applyCreateCollection_mem happ⟩

/-- Postcondition of a successful pass over one declared collection. -/
theorem processColl_ok_post {oracle : Action → Bool} {names0 : List String}
    {c : CollectionSpec} {s : St}
    (hok : (processColl oracle names0 c s).ok = true)
    (hg : ∀ spec ∈ c.indexes, GoodSpec spec)
    (hn : ∀ n ∈ names0, n ∈ collNames s.db) :
    s.ok = true ∧
    DbExtends s.db (processColl oracle names0 c s).db ∧
    c.name ∈ collNames (processColl oracle names0 c s).db ∧
    ∀ spec ∈ c.indexes, IndexSatisfied (processColl oracle names0 c s).db c.name spec := by
  unfold processColl processIndexes at hok ⊢
  set s1 := createCollIfAbsent oracle names0 c.name s with hs1
  have hok1 : s1.ok = true := by
    by_contra hc
    rw [foldIndexes_not_ok (eq_false_of_ne_true hc)] at hok
    exact hc hok
  obtain ⟨hs, hx1, hmem1⟩ := createCollIfAbsent_ok_post hok1 hn
  obtain ⟨-, hx2, hsat⟩ := foldIndexes_ok_post c.indexes s1 hok hg ⟨[], by simp⟩
  exact ⟨hs, hx1.trans hx2, hx2.2.2 c.name hmem1, hsat⟩

theorem foldColls_not_ok {oracle : Action → Bool} {names0 : List String}
    {s : St} (h : s.ok = false) :
    ∀ cs : List CollectionSpec,
    cs.foldl (fun t c => processColl oracle names0 c t) s = s := by
  intro cs
  induction cs with
  | nil => rfl
  | cons c r ih => rw [List.foldl_cons, processColl_not_ok h]; exact ih

/-- Postcondition of a successful pass over a list of declared collections. -/
theorem foldColls_ok_post {oracle : Action → Bool} {names0 : List String} :
    ∀ (cs : List CollectionSpec) (s : St),
    ((cs.foldl (fun t c => processColl oracle names0 c t) s).ok = true) →
    (∀ c ∈ cs, ∀ spec ∈ c.indexes, GoodSpec spec) →
    (∀ n ∈ names0, n ∈ collNames s.db) →
    s.ok = true ∧
    DbExtends s.db (cs.foldl (fun t c => processColl oracle names0 c t) s).db ∧
    ∀ c ∈ cs,
      c.name ∈ collNames (cs.foldl (fun t c => processColl oracle names0 c t) s).db ∧
      ∀ spec ∈ c.indexes,
        IndexSatisfied (cs.foldl (fun t c => processColl oracle names0 c t) s).db c.name spec := by
  intro cs
  induction cs with
  | nil =>
    intro s hok _ _
    exact ⟨hok, DbExtends.refl _, by simp⟩
  | cons c rest ih =>
    intro s hok hg hn
    rw [List.foldl_cons] at hok ⊢
    have hok1 : (processColl oracle names0 c s).ok = true := by
      by_contra hc
      rw [foldColls_not_ok (eq_false_of_ne_true hc) rest] at hok
      exact hc hok
    obtain ⟨hs, hx1, hmem1, hsat1⟩ := processColl_ok_post hok1 (hg c (by simp)) hn
    have hn' : ∀ n ∈ names0, n ∈ collNames (processColl oracle names0 c s).db :=
      fun n h => hx1.2.2 n (hn n h)
    obtain ⟨-, hx2, hrest⟩ :=
      ih (processColl oracle names0 c s) hok (fun q hq => hg q (by simp [hq])) hn'
    refine ⟨hs, hx1.trans hx2, ?_⟩
    intro q hq
    rcases List.mem_cons.mp hq with h | h
    · subst h
      exact ⟨hx2.2.2 q.name hmem1, fun spec hspec => (hsat1 spec hspec).mono hx2⟩
    · exact hrest q h

/-! ### The schema phase never touches documents -/

theorem attemptOp_db_cases (oracle : Action → Bool) (s : St) (a : Action)
    (f : LiveDb → Option LiveDb) :
    (attemptOp oracle s a f).db = s.db ∨ f s.db = some (attemptOp oracle s a f).db := by
  unfold attemptOp
  by_cases hs : s.ok = true
  · rw [if_pos hs]
    cases hf : f s.db with
    | none => exact Or.inl rfl
    | some db' =>
      by_cases ho : oracle a = true
      · simp [ho]
      · simp [eq_false_of_ne_true ho]
  · rw [if_neg hs]
    exact Or.inl rfl

theorem applyCreateCollection_docs {n : String} {db db' : LiveDb}
    (h : applyCreateCollection n db = some db') :
    ∀ m, docsOf db' m = docsOf db m := by
  intro m
  unfold applyCreateCollection at h
  by_cases ha : db.collections.any (fun c => decide (c.name = n)) = true
  · simp [ha] at h
  · have ha' := eq_false_of_ne_true ha
    simp only [ha', Bool.false_eq_true, if_false, Option.some.injEq] at h
    subst h
    have hg : getColl db n = none := getColl_eq_none_of_any_false ha'
    by_cases hmn : m = n
    · subst hmn
      rw [docsOf, docsOf, hg,
        getColl_append_self (c := { name := m, indexes := [idIndex], docs := [] }) hg]
      simp
    · rw [docsOf, docsOf,
        getColl_append_of_ne (show ({ name := n, indexes := [idIndex], docs := [] } : LiveCollection).name ≠ m from fun hh => hmn hh.symm)]

theorem applyCreateIndex_docs {coll : String} {keys : KeyTuple} {opts : OptMap}
    {db db' : LiveDb} (h : applyCreateIndex coll keys opts db = some db') :
    ∀ m, docsOf db' m = docsOf db m := by
  intro m
  obtain ⟨-, hdb⟩ := applyCreateIndex_db h
  subst hdb
  exact (docsOf_appendIndexesL ..).trans rfl

theorem docsOf_processIndexWith (oracle : Action → Bool)
    (snap : List LiveIndexInfo) (coll : String) (spec : IndexSpec) (s : St)
    (m : String) :
    docsOf (processIndexWith oracle snap coll spec s).db m = docsOf s.db m := by
  unfold processIndexWith
  cases hf : snap.find? (fun li => decide (li.key = spec.key)) with
  | some li =>
    by_cases hd : dictEqB (stripMeta li.meta) spec.options = true
    · simp only [hd, if_true]
      rw [emit_db]
    · simp only [eq_false_of_ne_true hd, Bool.false_eq_true, if_false]
      rcases attemptOp_db_cases oracle s _ (applyCreateIndex coll spec.key spec.options) with h | h
      · rw [h]
      · exact applyCreateIndex_docs h m
  | none =>
    rcases attemptOp_db_cases oracle s _ (applyCreateIndex coll spec.key spec.options) with h | h
    · rw [h]
    · exact applyCreateIndex_docs h m

theorem docsOf_processIndexes (oracle : Action → Bool) (coll : String)
    (specs : List IndexSpec) (s : St) (m : String) :
    docsOf (processIndexes oracle coll specs s).db m = docsOf s.db m := by
  unfold processIndexes
  generalize indexesOf s.db coll = snap
  induction specs generalizing s with
  | nil => rfl
  | cons spec rest ih =>
    rw [List.foldl_cons]
    exact (ih _).trans (docsOf_processIndexWith ..)

theorem docsOf_createCollIfAbsent (oracle : Action → Bool)
    (names0 : List String) (n : String) (s : St) (m : String) :
    docsOf (createCollIfAbsent oracle names0 n s).db m = docsOf s.db m := by
  unfold createCollIfAbsent
  by_cases hm : names0.contains n = true
  · rw [if_pos hm]
  · rw [if_neg hm]
    rcases attemptOp_db_cases oracle s _ (applyCreateCollection n) with h | h
    · rw [h]
    · exact applyCreateCollection_docs h m

theorem docsOf_processColl (oracle : Action → Bool) (names0 : List String)
    (c : CollectionSpec) (s : St) (m : String) :
    docsOf (processColl oracle names0 c s).db m = docsOf s.db m := by
  unfold processColl
  exact (docsOf_processIndexes ..).trans (docsOf_createCollIfAbsent ..)

theorem docsOf_schemaPhase (oracle : Action → Bool) (db : LiveDb) (m : String) :
    docsOf (schemaPhase oracle db).db m = docsOf db m := by
  unfold schemaPhase
  have : ∀ (cs : List CollectionSpec) (s : St),
      docsOf (cs.foldl (fun t c => processColl oracle (collNames db) c t) s).db m
        = docsOf s.db m := by
    intro cs
    induction cs with
    | nil => intro s; rfl
    | cons c rest ih =>
      intro s
      rw [List.foldl_cons]
      exact (ih _).trans (docsOf_processColl ..)
  exact this collection_schemas _

/-! ### Effects of the seeding operations -/

theorem applyInsertOne_docs {coll : String} {d : SeedDoc} {db db' : LiveDb}
    (h : applyInsertOne coll d db = some db') :
    docsOf db' coll = docsOf db coll ++ [d] ∧
    (∀ m, m ≠ coll → docsOf db' m = docsOf db m) ∧
    (∀ m, indexesOf db' m = indexesOf db m) := by
  unfold applyInsertOne at h
  simp only [Option.some.injEq] at h
  subst h
  refine ⟨(docsOf_appendDocsL_self ..).symm ▸ rfl, fun m hm => ?_, fun m => ?_⟩
  · exact (docsOf_appendDocsL_other _ hm _).trans rfl
  · exact (indexesOf_appendDocsL ..).trans rfl

theorem applyInsertMany_docs {coll : String} {ds : List SeedDoc} {db db' : LiveDb}
    (h : applyInsertMany coll ds db = some db') :
    docsOf db' coll = docsOf db coll ++ ds ∧
    (∀ m, m ≠ coll → docsOf db' m = docsOf db m) ∧
    (∀ m, indexesOf db' m = indexesOf db m) := by
  unfold applyInsertMany at h
  simp only [Option.some.injEq] at h
  subst h
  refine ⟨(docsOf_appendDocsL_self ..).symm ▸ rfl, fun m hm => ?_, fun m => ?_⟩
  · exact (docsOf_appendDocsL_other _ hm _).trans rfl
  · exact (indexesOf_appendDocsL ..).trans rfl

theorem foldCourses_not_ok {oracle : Action → Bool} {s : St} (h : s.ok = false) :
    ∀ cs : List Course,
    cs.foldl (fun t c => attemptOp oracle t (.insertOne "courses" (.course c))
      (applyInsertOne "courses" (.course c))) s = s := by
  intro cs
  induction cs with
  | nil => rfl
  | cons c r ih => rw [List.foldl_cons, attemptOp_not_ok h]; exact ih

/-- Postcondition of a successful insert-one loop over a list of courses. -/
theorem foldCourses_ok_post {oracle : Action → Bool} :
    ∀ (cs : List Course) (s : St),
    ((cs.foldl (fun t c => attemptOp oracle t (.insertOne "courses" (.course c))
        (applyInsertOne "courses" (.course c))) s).ok = true) →
    s.ok = true ∧
    DbExtends s.db (cs.foldl (fun t c => attemptOp oracle t (.insertOne "courses" (.course c))
        (applyInsertOne "courses" (.course c))) s).db ∧
    (cs.foldl (fun t c => attemptOp oracle t (.insertOne "courses" (.course c))
        (applyInsertOne "courses" (.course c))) s).trace
      = s.trace ++ cs.map (fun c => Action.insertOne "courses" (.course c)) ∧
    docsOf (cs.foldl (fun t c => attemptOp oracle t (.insertOne "courses" (.course c))
        (applyInsertOne "courses" (.course c))) s).db "courses"
      = docsOf s.db "courses" ++ cs.map .course ∧
    (∀ m, m ≠ "courses" → docsOf (cs.foldl (fun t c => attemptOp oracle t (.insertOne "courses" (.course c))
        (applyInsertOne "courses" (.course c))) s).db m = docsOf s.db m) ∧
    (∀ m, indexesOf (cs.foldl (fun t c => attemptOp oracle t (.insertOne "courses" (.course c))
        (applyInsertOne "courses" (.course c))) s).db m = indexesOf s.db m) := by
  intro cs
  induction cs with
  | nil =>
    intro s hok
    exact ⟨hok, DbExtends.refl _, by simp, by simp, fun _ _ => rfl, fun _ => rfl⟩
  | cons c rest ih =>
    intro s hok
    rw [List.foldl_cons] at hok ⊢
    set s1 := attemptOp oracle s (.insertOne "courses" (.course c))
      (applyInsertOne "courses" (.course c)) with hs1
    have hok1 : s1.ok = true := by
      by_contra hc
      rw [foldCourses_not_ok (eq_false_of_ne_true hc)] at hok
      exact hc hok
    obtain ⟨hs, -, happ, heq⟩ := attemptOp_ok_true hok1
    rw [← hs1] at happ heq
    have htr : s1.trace = s.trace ++ [Action.insertOne "courses" (.course c)] := by
      rw [heq]
    obtain ⟨hd1, hd2, hd3⟩ := applyInsertOne_docs happ
    obtain ⟨-, hx2, ht2, hc2, ho2, hi2⟩ := ih s1 hok
    refine ⟨hs, (applyInsertOne_extends happ).trans hx2, ?_, ?_, ?_, ?_⟩
    · rw [ht2, htr]
      simp
    · rw [hc2, hd1]
      simp
    · intro m hm
      rw [ho2 m hm, hd2 m hm]
    · intro m
      rw [hi2 m, hd3 m]

/-- The actions the seeding code emits for a given database state at seed
time: per-document `insert_one` actions for courses, a single `insert_many`
for tax rates and for payment locations, each only when the respective count
is zero. -/
def seedTraceOf (db : LiveDb) : List Action :=
  (if (docsOf db "courses").length = 0 then
    SAMPLE_COURSES.map (fun c => Action.insertOne "courses" (.course c)) else []) ++
  (if (docsOf db "tax_rates").length = 0 then
    [Action.insertMany "tax_rates" (sample_rates.map .rate)] else []) ++
  (if (docsOf db "payment_locations").length = 0 then
    [Action.insertMany "payment_locations" (sample_locations.map .loc)] else [])

/-- Postcondition of a successful course-seeding step. -/
theorem seedCourses_ok_post {oracle : Action → Bool} {s : St}
    (hok : (seedCourses oracle s).ok = true) :
    s.ok = true ∧
    DbExtends s.db (seedCourses oracle s).db ∧
    (seedCourses oracle s).trace = s.trace ++
      (if (docsOf s.db "courses").length = 0 then
        SAMPLE_COURSES.map (fun c => Action.insertOne "courses" (.course c)) else []) ∧
    docsOf (seedCourses oracle s).db "courses" = docsOf s.db "courses" ++
      (if (docsOf s.db "courses").length = 0 then SAMPLE_COURSES.map .course else []) ∧
    (∀ m, m ≠ "courses" → docsOf (seedCourses oracle s).db m = docsOf s.db m) ∧
    (∀ m, indexesOf (seedCourses oracle s).db m = indexesOf s.db m) := by
  unfold seedCourses at *
  by_cases hz : (docsOf s.db "courses").length = 0
  · rw [if_pos hz] at hok ⊢
    obtain ⟨hs, hx, ht, hc, ho, hi⟩ := foldCourses_ok_post SAMPLE_COURSES s hok
    rw [if_pos hz, if_pos hz]
    exact ⟨hs, hx, ht, hc, ho, hi⟩
  · rw [if_neg hz] at hok ⊢
    rw [if_neg hz, if_neg hz]
    exact ⟨hok, DbExtends.refl _, by simp, by simp, fun _ _ => rfl, fun _ => rfl⟩

/-- Postcondition of a successful tax-rate-seeding step. -/
theorem seedTaxRates_ok_post {oracle : Action → Bool} {s : St}
    (hok : (seedTaxRates oracle s).ok = true) :
    s.ok = true ∧
    DbExtends s.db (seedTaxRates oracle s).db ∧
    (seedTaxRates oracle s).trace = s.trace ++
      (if (docsOf s.db "tax_rates").length = 0 then
        [Action.insertMany "tax_rates" (sample_rates.map .rate)] else []) ∧
    docsOf (seedTaxRates oracle s).db "tax_rates" = docsOf s.db "tax_rates" ++
      (if (docsOf s.db "tax_rates").length = 0 then sample_rates.map .rate else []) ∧
    (∀ m, m ≠ "tax_rates" → docsOf (seedTaxRates oracle s).db m = docsOf s.db m) ∧
    (∀ m, indexesOf (seedTaxRates oracle s).db m = indexesOf s.db m) := by
  unfold seedTaxRates at *
  by_cases hz : (docsOf s.db "tax_rates").length = 0
  · rw [if_pos hz] at hok ⊢
    set s1 := attemptOp oracle s (.insertMany "tax_rates" (sample_rates.map .rate))
      (applyInsertMany "tax_rates" (sample_rates.map .rate)) with hs1
    obtain ⟨hs, -, happ, heq⟩ := attemptOp_ok_true hok
    rw [← hs1] at happ heq
    have htr : s1.trace = s.trace ++ [Action.insertMany "tax_rates" (sample_rates.map .rate)] := by
      rw [heq]
    obtain ⟨hd1, hd2, hd3⟩ := applyInsertMany_docs happ
    rw [if_pos hz, if_pos hz]
    exact ⟨hs, applyInsertMany_extends happ, htr, hd1, hd2, hd3⟩
  · rw [if_neg hz] at hok ⊢
    rw [if_neg hz, if_neg hz]
    exact ⟨hok, DbExtends.refl _, by simp, by simp, fun _ _ => rfl, fun _ => rfl⟩

/-- Postcondition of a successful payment-location-seeding step. -/
theorem seedPayLocs_ok_post {oracle : Action → Bool} {s : St}
    (hok : (seedPayLocs oracle s).ok = true) :
    s.ok = true ∧
    DbExtends s.db (seedPayLocs oracle s).db ∧
    (seedPayLocs oracle s).trace = s.trace ++
      (if (docsOf s.db "payment_locations").length = 0 then
        [Action.insertMany "payment_locations" (sample_locations.map .loc)] else []) ∧
    docsOf (seedPayLocs oracle s).db "payment_locations" = docsOf s.db "payment_locations" ++
      (if (docsOf s.db "payment_locations").length = 0 then sample_locations.map .loc else []) ∧
    (∀ m, m ≠ "payment_locations" → docsOf (seedPayLocs oracle s).db m = docsOf s.db m) ∧
    (∀ m, indexesOf (seedPayLocs oracle s).db m = indexesOf s.db m) := by
  unfold seedPayLocs at *
  by_cases hz : (docsOf s.db "payment_locations").length = 0
  · rw [if_pos hz] at hok ⊢
    set s1 := attemptOp oracle s (.insertMany "payment_locations" (sample_locations.map .loc))
      (applyInsertMany "payment_locations" (sample_locations.map .loc)) with hs1
    obtain ⟨hs, -, happ, heq⟩ := attemptOp_ok_true hok
    rw [← hs1] at happ heq
    have htr : s1.trace = s.trace ++ [Action.insertMany "payment_locations" (sample_locations.map .loc)] := by
      rw [heq]
    obtain ⟨hd1, hd2, hd3⟩ := applyInsertMany_docs happ
    rw [if_pos hz, if_pos hz]
    exact ⟨hs, applyInsertMany_extends happ, htr, hd1, hd2, hd3⟩
  · rw [if_neg hz] at hok ⊢
    rw [if_neg hz, if_neg hz]
    exact ⟨hok, DbExtends.refl _, by simp, by simp, fun _ _ => rfl, fun _ => rfl⟩

/-- Postcondition of a successful seeding phase, phrased against the state at
the start of the phase. -/
theorem seedPhase_ok_post {oracle : Action → Bool} {s : St}
    (hok : (seedPhase oracle s).ok = true) :
    s.ok = true ∧
    DbExtends s.db (seedPhase oracle s).db ∧
    (seedPhase oracle s).trace = s.trace ++ seedTraceOf s.db ∧
    docsOf (seedPhase oracle s).db "courses" = docsOf s.db "courses" ++
      (if (docsOf s.db "courses").length = 0 then SAMPLE_COURSES.map .course else []) ∧
    docsOf (seedPhase oracle s).db "tax_rates" = docsOf s.db "tax_rates" ++
      (if (docsOf s.db "tax_rates").length = 0 then sample_rates.map .rate else []) ∧
    docsOf (seedPhase oracle s).db "payment_locations" = docsOf s.db "payment_locations" ++
      (if (docsOf s.db "payment_locations").length = 0 then sample_locations.map .loc else []) ∧
    (∀ m, indexesOf (seedPhase oracle s).db m = indexesOf s.db m) := by
  unfold seedPhase at *
  set s1 := seedCourses oracle s with hs1
  set s2 := seedTaxRates oracle s1 with hs2
  have hok2 : s2.ok = true := by
    by_contra hc
    rw [seedPayLocs_not_ok (eq_false_of_ne_true hc)] at hok
    exact hc hok
  have hok1 : s1.ok = true := by
    by_contra hc
    rw [hs2, seedTaxRates_not_ok (eq_false_of_ne_true hc)] at hok2
    exact hc hok2
  obtain ⟨hs, hx1, ht1, hc1, ho1, hi1⟩ := seedCourses_ok_post (hs1 ▸ hok1)
  rw [← hs1] at hx1 ht1 hc1 ho1 hi1
  obtain ⟨-, hx2, ht2, hr2, ho2, hi2⟩ := seedTaxRates_ok_post (hs2 ▸ hok2)
  rw [← hs2] at hx2 ht2 hr2 ho2 hi2
  obtain ⟨-, hx3, ht3, hl3, ho3, hi3⟩ := seedPayLocs_ok_post hok
  have hrates_pre : docsOf s1.db "tax_rates" = docsOf s.db "tax_rates" :=
    ho1 "tax_rates" (by decide)
  have hlocs_pre1 : docsOf s1.db "payment_locations" = docsOf s.db "payment_locations" :=
    ho1 "payment_locations" (by decide)
  have hlocs_pre2 : docsOf s2.db "payment_locations" = docsOf s.db "payment_locations" :=
    (ho2 "payment_locations" (by decide)).trans hlocs_pre1
  refine ⟨hs, (hx1.trans hx2).trans hx3, ?_, ?_, ?_, ?_, ?_⟩
  · rw [ht3, ht2, ht1, hrates_pre, hlocs_pre2, seedTraceOf]
    simp [List.append_assoc]
  · rw [ho3 "courses" (by decide), ho2 "courses" (by decide), hc1]
  · rw [ho3 "tax_rates" (by decide), hr2, hrates_pre]
  · rw [hl3, hlocs_pre2]
  · intro m
    rw [hi3 m, hi2 m, hi1 m]

/-- Postcondition of a successful schema phase. -/
theorem schemaPhase_ok_post {oracle : Action → Bool} {db : LiveDb}
    (hok : (schemaPhase oracle db).ok = true) :
    DbExtends db (schemaPhase oracle db).db ∧
    ∀ c ∈ collection_schemas, c.name ∈ collNames (schemaPhase oracle db).db ∧
      ∀ spec ∈ c.indexes, IndexSatisfied (schemaPhase oracle db).db c.name spec := by
  unfold schemaPhase at *
  obtain ⟨-, hx, hall⟩ :=
    foldColls_ok_post collection_schemas { trace := [], db := db, ok := true } hok
      (by decide) (fun n h => h)
  exact ⟨hx, hall⟩

set_option maxHeartbeats 1000000 in
/-- Postcondition of a successful `initialize_database` body: the database
only grew; every declared collection exists; every declared index is
satisfied; seed-collection contents and the trailing seed actions are
determined by the initial counts. -/
theorem runInit_ok_post (oracle : Action → Bool) (db : LiveDb)
    (hok : (runInit oracle db).ok = true) :
    DbExtends db (runInit oracle db).db ∧
    (∀ c ∈ collection_schemas, c.name ∈ collNames (runInit oracle db).db ∧
      ∀ spec ∈ c.indexes, IndexSatisfied (runInit oracle db).db c.name spec) ∧
    docsOf (runInit oracle db).db "courses" = docsOf db "courses" ++
      (if (docsOf db "courses").length = 0 then SAMPLE_COURSES.map .course else []) ∧
    docsOf (runInit oracle db).db "tax_rates" = docsOf db "tax_rates" ++
      (if (docsOf db "tax_rates").length = 0 then sample_rates.map .rate else []) ∧
    docsOf (runInit oracle db).db "payment_locations" = docsOf db "payment_locations" ++
      (if (docsOf db "payment_locations").length = 0 then sample_locations.map .loc else []) ∧
    (runInit oracle db).trace = (schemaPhase oracle db).trace ++ seedTraceOf db := by
  unfold runInit at *
  obtain ⟨hspok, hxs, hts, hcs, hrs, hls, his⟩ := seedPhase_ok_post hok
  obtain ⟨hx1, hall⟩ := schemaPhase_ok_post hspok
  have hdocs : ∀ m, docsOf (schemaPhase oracle db).db m = docsOf db m := fun m =>
    docsOf_schemaPhase ..
  have hseedtr : seedTraceOf (schemaPhase oracle db).db = seedTraceOf db := by
    unfold seedTraceOf
    rw [hdocs "courses", hdocs "tax_rates", hdocs "payment_locations"]
  refine ⟨hx1.trans hxs, ?_, ?_, ?_, ?_, ?_⟩
  · intro c hc
    obtain ⟨hmem, hsat⟩ := hall c hc
    refine ⟨hxs.2.2 c.name hmem, fun spec hspec => ?_⟩
    obtain ⟨li, hf, hd⟩ := hsat spec hspec
    rw [← his c.name] at hf
    exact ⟨li, hf, hd⟩
  · rw [hcs, hdocs "courses"]
  · rw [hrs, hdocs "tax_rates"]
  · rw [hls, hdocs "payment_locations"]
  · rw [hts, hseedtr]

/-! ### The second run is all skips -/

theorem processIndexWith_skip {oracle : Action → Bool} {snap : List LiveIndexInfo}
    {coll : String} {spec : IndexSpec} {s : St} {li : LiveIndexInfo}
    (hok : s.ok = true)
    (hf : snap.find? (fun x => decide (x.key = spec.key)) = some li)
    (hd : dictEqB (stripMeta li.meta) spec.options = true) :
    processIndexWith oracle snap coll spec s =
      { s with trace := s.trace ++ [.skipIndex coll spec.key] } := by
  unfold processIndexWith
  rw [hf]
  dsimp only
  rw [if_pos hd, emit_ok hok]

theorem foldIndexes_skips {oracle : Action → Bool} {snap : List LiveIndexInfo}
    {coll : String} :
    ∀ (specs : List IndexSpec) (s : St), s.ok = true →
    (∀ spec ∈ specs, ∃ li, snap.find? (fun x => decide (x.key = spec.key)) = some li ∧
      dictEqB (stripMeta li.meta) spec.options = true) →
    specs.foldl (fun t spec => processIndexWith oracle snap coll spec t) s =
      { s with trace := s.trace ++ specs.map (fun spec => Action.skipIndex coll spec.key) } := by
  intro specs
  induction specs with
  | nil => intro s hok _; simp
  | cons spec rest ih =>
    intro s hok hsat
    obtain ⟨li, hf, hd⟩ := hsat spec (by simp)
    rw [List.foldl_cons, processIndexWith_skip hok hf hd,
      ih _ (by simp [hok]) (fun q hq => hsat q (by simp [hq]))]
    simp

theorem processColl_skips {oracle : Action → Bool} {names0 : List String}
    {c : CollectionSpec} {s : St} (hok : s.ok = true)
    (hmem : names0.contains c.name = true)
    (hsat : ∀ spec ∈ c.indexes, IndexSatisfied s.db c.name spec) :
    processColl oracle names0 c s =
      { s with trace := s.trace ++ c.indexes.map (fun spec => Action.skipIndex c.name spec.key) } := by
  unfold processColl createCollIfAbsent processIndexes
  rw [if_pos hmem]
  exact foldIndexes_skips c.indexes s hok (fun spec hspec => hsat spec hspec)

theorem foldColls_skips {oracle : Action → Bool} {names0 : List String} :
    ∀ (cs : List CollectionSpec) (s : St), s.ok = true →
    (∀ c ∈ cs, names0.contains c.name = true ∧
      ∀ spec ∈ c.indexes, IndexSatisfied s.db c.name spec) →
    cs.foldl (fun t c => processColl oracle names0 c t) s =
      { s with trace := s.trace ++
        (cs.map (fun c => c.indexes.map (fun spec => Action.skipIndex c.name spec.key))).join } := by
  intro cs
  induction cs with
  | nil => intro s hok _; simp
  | cons c rest ih =>
    intro s hok hsat
    obtain ⟨hmem, hcsat⟩ := hsat c (by simp)
    rw [List.foldl_cons, processColl_skips hok hmem hcsat]
    rw [ih { s with trace := s.trace ++
        c.indexes.map (fun spec => Action.skipIndex c.name spec.key) } hok
      (fun q hq => hsat q (List.mem_cons_of_mem _ hq))]
    simp

/-- The trace of a run in which every index decision is the skip branch. -/
def allSkips : List Action :=
  (collection_schemas.map
    (fun c => c.indexes.map (fun spec => Action.skipIndex c.name spec.key))).join

theorem schemaPhase_skips {oracle : Action → Bool} {db : LiveDb}
    (hmem : ∀ c ∈ collection_schemas, (collNames db).contains c.name = true)
    (hsat : ∀ c ∈ collection_schemas, ∀ spec ∈ c.indexes, IndexSatisfied db c.name spec) :
    schemaPhase oracle db = { trace := allSkips, db := db, ok := true } := by
  unfold schemaPhase
  rw [foldColls_skips collection_schemas { trace := [], db := db, ok := true } rfl
    (fun c hc => ⟨hmem c hc, hsat c hc⟩)]
  simp [allSkips]

theorem seedPhase_noop {oracle : Action → Bool} {s : St}
    (h1 : (docsOf s.db "courses").length ≠ 0)
    (h2 : (docsOf s.db "tax_rates").length ≠ 0)
    (h3 : (docsOf s.db "payment_locations").length ≠ 0) :
    seedPhase oracle s = s := by
  unfold seedPhase seedCourses
  rw [if_neg h1]
  unfold seedTaxRates
  rw [if_neg h2]
  unfold seedPayLocs
  rw [if_neg h3]

set_option maxHeartbeats 2000000 in
/-- Idempotence: after a successful run, a second run emits only the skip
actions and leaves both the database and its own state unchanged. -/
theorem reconcile_second_run {db : LiveDb} (hok : (reconcile db).ok = true) :
    reconcile ((reconcile db).db) =
      { trace := allSkips, db := (reconcile db).db, ok := true } := by
  simp only [reconcile] at hok ⊢
  obtain ⟨-, hall, hcs, hrs, hls, -⟩ := runInit_ok_post (fun _ => false) db hok
  have hmem : ∀ c ∈ collection_schemas,
      (collNames (runInit (fun _ => false) db).db).contains c.name = true :=
    fun c hc => List.elem_eq_true_of_mem ((hall c hc).1)
  have hsat : ∀ c ∈ collection_schemas, ∀ spec ∈ c.indexes,
      IndexSatisfied (runInit (fun _ => false) db).db c.name spec :=
    fun c hc => (hall c hc).2
  have hnonempty : ∀ (l seeds e : List SeedDoc), seeds ≠ [] →
      (l ++ (if l.length = 0 then seeds else e)).length ≠ 0 := by
    intro l seeds e hs
    by_cases hl : l.length = 0
    · rw [if_pos hl]
      rw [List.length_append]
      have : seeds.length ≠ 0 := fun h => hs (List.length_eq_zero.mp h)
      omega
    · rw [if_neg hl, List.length_append]
      omega
  have h1 : (docsOf (runInit (fun _ => false) db).db "courses").length ≠ 0 := by
    rw [hcs]
    exact hnonempty _ _ [] (by decide)
  have h2 : (docsOf (runInit (fun _ => false) db).db "tax_rates").length ≠ 0 := by
    rw [hrs]
    exact hnonempty _ _ [] (by decide)
  have h3 : (docsOf (runInit (fun _ => false) db).db "payment_locations").length ≠ 0 := by
    rw [hls]
    exact hnonempty _ _ [] (by decide)
  show seedPhase _ (schemaPhase _ _) = _
  rw [schemaPhase_skips hmem hsat]
  exact seedPhase_noop h1 h2 h3

/-! ### Shape of the emitted plan -/

/-- The collection an action concerns. -/
def Action.forColl : Action → String
  | .createCollection n => n
  | .createIndex c _ _ => c
  | .skipIndex c _ => c
  | .insertOne c _ => c
  | .insertMany c _ => c

/-- Whether an action is a create-collection action. -/
def Action.isCreateColl : Action → Bool
  | .createCollection _ => true
  | _ => false

/-- A well-formed per-collection plan segment: every action concerns the
declared collection, and a create-collection action can only be the very
first action of the segment. -/
def SegOk (c : CollectionSpec) (t : List Action) : Prop :=
  (∀ a ∈ t, a.forColl = c.name) ∧
  ∀ i a, t.get? i = some a → a.isCreateColl = true → i = 0

theorem emit_trace_cases (s : St) (a : Action) :
    (emit s a).trace = s.trace ∨ (emit s a).trace = s.trace ++ [a] := by
  unfold emit; split
  · exact Or.inr rfl
  · exact Or.inl rfl

theorem attemptOp_trace_cases (oracle : Action → Bool) (s : St) (a : Action)
    (f : LiveDb → Option LiveDb) :
    (attemptOp oracle s a f).trace = s.trace ∨
    (attemptOp oracle s a f).trace = s.trace ++ [a] := by
  unfold attemptOp
  by_cases hs : s.ok = true
  · rw [if_pos hs]
    cases hf : f s.db with
    | none => exact Or.inr rfl
    | some db' =>
      dsimp only
      by_cases ho : oracle a = true
      · rw [if_pos ho]
        exact Or.inr rfl
      · rw [if_neg ho]
        exact Or.inr rfl
  · rw [if_neg hs]
    exact Or.inl rfl

theorem processIndexWith_trace (oracle : Action → Bool)
    (snap : List LiveIndexInfo) (coll : String) (spec : IndexSpec) (s : St) :
    ∃ t, (processIndexWith oracle snap coll spec s).trace = s.trace ++ t ∧
      ∀ a ∈ t, a.forColl = coll ∧ a.isCreateColl = false := by
  unfold processIndexWith
  cases hf : snap.find? (fun li => decide (li.key = spec.key)) with
  | some li =>
    by_cases hd : dictEqB (stripMeta li.meta) spec.options = true
    · simp only [hd, if_true]
      rcases emit_trace_cases s (.skipIndex coll spec.key) with h | h
      · exact ⟨[], by simp [h], by simp⟩
      · exact ⟨[.skipIndex coll spec.key], h, by simp [Action.forColl, Action.isCreateColl]⟩
    · simp only [eq_false_of_ne_true hd, Bool.false_eq_true, if_false]
      rcases attemptOp_trace_cases oracle s (.createIndex coll spec.key spec.options)
        (applyCreateIndex coll spec.key spec.options) with h | h
      · exact ⟨[], by simp [h], by simp⟩
      · exact ⟨[.createIndex coll spec.key spec.options], h,
          by simp [Action.forColl, Action.isCreateColl]⟩
  | none =>
    rcases attemptOp_trace_cases oracle s (.createIndex coll spec.key spec.options)
      (applyCreateIndex coll spec.key spec.options) with h | h
    · exact ⟨[], by simp [h], by simp⟩
    · exact ⟨[.createIndex coll spec.key spec.options], h,
        by simp [Action.forColl, Action.isCreateColl]⟩

theorem foldIndexes_trace (oracle : Action → Bool) (snap : List LiveIndexInfo)
    (coll : String) :
    ∀ (specs : List IndexSpec) (s : St),
    ∃ t, (specs.foldl (fun u spec => processIndexWith oracle snap coll spec u) s).trace
        = s.trace ++ t ∧
      ∀ a ∈ t, a.forColl = coll ∧ a.isCreateColl = false := by
  intro specs
  induction specs with
  | nil => intro s; exact ⟨[], by simp, by simp⟩
  | cons spec rest ih =>
    intro s
    rw [List.foldl_cons]
    obtain ⟨t1, h1, hp1⟩ := processIndexWith_trace oracle snap coll spec s
    obtain ⟨t2, h2, hp2⟩ := ih (processIndexWith oracle snap coll spec s)
    refine ⟨t1 ++ t2, ?_, ?_⟩
    · rw [h2, h1, List.append_assoc]
    · intro a ha
      rcases List.mem_append.mp ha with h | h
      · exact hp1 a h
      · exact hp2 a h

theorem createCollIfAbsent_trace (oracle : Action → Bool) (names0 : List String)
    (n : String) (s : St) :
    (createCollIfAbsent oracle names0 n s).trace = s.trace ∨
    (createCollIfAbsent oracle names0 n s).trace = s.trace ++ [.createCollection n] := by
  unfold createCollIfAbsent
  by_cases hm : names0.contains n = true
  · rw [if_pos hm]
    exact Or.inl rfl
  · rw [if_neg hm]
    exact attemptOp_trace_cases ..

/-- The trace one declared collection contributes is a well-formed segment. -/
theorem processColl_trace (oracle : Action → Bool) (names0 : List String)
    (c : CollectionSpec) (s : St) :
    ∃ t, (processColl oracle names0 c s).trace = s.trace ++ t ∧ SegOk c t := by
  unfold processColl processIndexes
  obtain ⟨t2, h2, hp2⟩ := foldIndexes_trace oracle
    (indexesOf (createCollIfAbsent oracle names0 c.name s).db c.name) c.name
    c.indexes (createCollIfAbsent oracle names0 c.name s)
  rcases createCollIfAbsent_trace oracle names0 c.name s with h1 | h1
  · refine ⟨t2, by rw [h2, h1], ?_, ?_⟩
    · exact fun a ha => (hp2 a ha).1
    · intro i a hget hcc
      have := (hp2 a (List.get?_mem hget)).2
      rw [this] at hcc
      cases hcc
  · refine ⟨Action.createCollection c.name :: t2, ?_, ?_, ?_⟩
    · rw [h2, h1]
      simp
    · intro a ha
      rcases List.mem_cons.mp ha with h | h
      · subst h; rfl
      · exact (hp2 a h).1
    · intro i a hget hcc
      cases i with
      | zero => rfl
      | succ j =>
        simp only [List.get?_cons_succ] at hget
        have := (hp2 a (List.get?_mem hget)).2
        rw [this] at hcc
        cases hcc

/-- The whole schema-phase trace splits into per-collection segments, one per
declared collection, in declaration order. -/
theorem foldColls_trace (oracle : Action → Bool) (names0 : List String) :
    ∀ (cs : List CollectionSpec) (s : St),
    ∃ ts, (cs.foldl (fun t c => processColl oracle names0 c t) s).trace
        = s.trace ++ ts.join ∧ List.Forall₂ SegOk cs ts := by
  intro cs
  induction cs with
  | nil => intro s; exact ⟨[], by simp, List.Forall₂.nil⟩
  | cons c rest ih =>
    intro s
    rw [List.foldl_cons]
    obtain ⟨t1, h1, hseg1⟩ := processColl_trace oracle names0 c s
    obtain ⟨ts, h2, hsegs⟩ := ih (processColl oracle names0 c s)
    refine ⟨t1 :: ts, ?_, List.Forall₂.cons hseg1 hsegs⟩
    rw [h2, h1]
    simp

/-! ### A failure aborts the run -/

/-- The shape of an aborted state: its trace is nonempty and ends with the
action whose execution failed. -/
def EndsAtFailure (s : St) : Prop :=
  s.ok = false → ∃ pre a, s.trace = pre ++ [a]

theorem emit_endsAtFailure {s : St} (h : EndsAtFailure s) (a : Action) :
    EndsAtFailure (emit s a) := by
  unfold emit
  by_cases hs : s.ok = true
  · rw [if_pos hs]
    intro hfail
    simp at hfail
    rw [hs] at hfail
    cases hfail
  · rw [if_neg hs]
    exact h

theorem attemptOp_endsAtFailure {s : St} (h : EndsAtFailure s)
    (oracle : Action → Bool) (a : Action) (f : LiveDb → Option LiveDb) :
    EndsAtFailure (attemptOp oracle s a f) := by
  unfold attemptOp
  by_cases hs : s.ok = true
  · rw [if_pos hs]
    cases hf : f s.db with
    | none => exact fun _ => ⟨s.trace, a, rfl⟩
    | some db' =>
      by_cases ho : oracle a = true
      · simp only [ho, if_true]
        exact fun _ => ⟨s.trace, a, rfl⟩
      · simp only [eq_false_of_ne_true ho, Bool.false_eq_true, if_false]
        intro hfail
        cases hfail
  · rw [if_neg hs]
    exact h

theorem processIndexWith_endsAtFailure {s : St} (h : EndsAtFailure s)
    (oracle : Action → Bool) (snap : List LiveIndexInfo) (coll : String)
    (spec : IndexSpec) : EndsAtFailure (processIndexWith oracle snap coll spec s) := by
  unfold processIndexWith
  cases snap.find? (fun li => decide (li.key = spec.key)) with
  | some li =>
    by_cases hd : dictEqB (stripMeta li.meta) spec.options = true
    · simp only [hd, if_true]
      exact emit_endsAtFailure h _
    · simp only [eq_false_of_ne_true hd, Bool.false_eq_true, if_false]
      exact attemptOp_endsAtFailure h _ _ _
  | none => exact attemptOp_endsAtFailure h _ _ _

theorem foldIndexes_endsAtFailure {oracle : Action → Bool}
    {snap : List LiveIndexInfo} {coll : String} :
    ∀ (specs : List IndexSpec) (s : St), EndsAtFailure s →
    EndsAtFailure (specs.foldl (fun t spec => processIndexWith oracle snap coll spec t) s) := by
  intro specs
  induction specs with
  | nil => exact fun s h => h
  | cons spec rest ih =>
    intro s h
    rw [List.foldl_cons]
    exact ih _ (processIndexWith_endsAtFailure h _ _ _ _)

theorem processColl_endsAtFailure {s : St} (h : EndsAtFailure s)
    (oracle : Action → Bool) (names0 : List String) (c : CollectionSpec) :
    EndsAtFailure (processColl oracle names0 c s) := by
  unfold processColl processIndexes createCollIfAbsent
  by_cases hm : names0.contains c.name = true
  · rw [if_pos hm]
    exact foldIndexes_endsAtFailure c.indexes s h
  · rw [if_neg hm]
    exact foldIndexes_endsAtFailure c.indexes _ (attemptOp_endsAtFailure h _ _ _)

theorem foldCourses_endsAtFailure {oracle : Action → Bool} :
    ∀ (cs : List Course) (s : St), EndsAtFailure s →
    EndsAtFailure (cs.foldl (fun t c => attemptOp oracle t (.insertOne "courses" (.course c))
      (applyInsertOne "courses" (.course c))) s) := by
  intro cs
  induction cs with
  | nil => exact fun s h => h
  | cons c r ih =>
    intro s h
    rw [List.foldl_cons]
    exact ih _ (attemptOp_endsAtFailure h _ _ _)

theorem seedCourses_endsAtFailure {s : St} (h : EndsAtFailure s)
    (oracle : Action → Bool) : EndsAtFailure (seedCourses oracle s) := by
  unfold seedCourses
  split
  · exact foldCourses_endsAtFailure SAMPLE_COURSES s h
  · exact h

theorem seedTaxRates_endsAtFailure {s : St} (h : EndsAtFailure s)
    (oracle : Action → Bool) : EndsAtFailure (seedTaxRates oracle s) := by
  unfold seedTaxRates
  split
  · exact attemptOp_endsAtFailure h _ _ _
  · exact h

theorem seedPayLocs_endsAtFailure {s : St} (h : EndsAtFailure s)
    (oracle : Action → Bool) : EndsAtFailure (seedPayLocs oracle s) := by
  unfold seedPayLocs
  split
  · exact attemptOp_endsAtFailure h _ _ _
  · exact h

theorem seedPhase_endsAtFailure {s : St} (h : EndsAtFailure s)
    (oracle : Action → Bool) : EndsAtFailure (seedPhase oracle s) := by
  unfold seedPhase
  exact seedPayLocs_endsAtFailure (seedTaxRates_endsAtFailure (seedCourses_endsAtFailure h _) _) _

theorem runInit_endsAtFailure (oracle : Action → Bool) (db : LiveDb) :
    EndsAtFailure (runInit oracle db) := by
  unfold runInit schemaPhase
  apply seedPhase_endsAtFailure
  have hinit : EndsAtFailure ({ trace := [], db := db, ok := true } : St) := by
    intro hfail
    cases hfail
  have : ∀ (cs : List CollectionSpec) (s : St), EndsAtFailure s →
      EndsAtFailure (cs.foldl (fun t c => processColl oracle (collNames db) c t) s) := by
    intro cs
    induction cs with
    | nil => exact fun s h => h
    | cons c r ih =>
      intro s h
      rw [List.foldl_cons]
      exact ih _ (processColl_endsAtFailure h _ _ _)
  exact this collection_schemas _ hinit

/-! ### Divergent index options -/

/-- When the first key-matching live index has divergent stripped options,
the code falls through to `create_index(keys, **options)` (models.py lines
272–273); with a key-matching index live in the store, the store rejects the
creation and the run aborts — the trace records the attempted create-index
call, the live database (the existing index included) is unchanged, and no
further action runs. -/
theorem processIndexWith_divergent {oracle : Action → Bool}
    {snap : List LiveIndexInfo} {coll : String} {spec : IndexSpec} {s : St}
    {li : LiveIndexInfo} (hok : s.ok = true)
    (hf : snap.find? (fun x => decide (x.key = spec.key)) = some li)
    (hd : dictEqB (stripMeta li.meta) spec.options = false)
    (hany : (indexesOf s.db coll).any (fun x => decide (x.key = spec.key)) = true) :
    processIndexWith oracle snap coll spec s =
      { trace := s.trace ++ [.createIndex coll spec.key spec.options],
        db := s.db, ok := false } := by
  unfold processIndexWith
  rw [hf]
  dsimp only
  rw [if_neg (by rw [hd]; exact Bool.false_ne_true)]
  unfold attemptOp
  rw [if_pos hok]
  unfold applyCreateIndex
  rw [if_pos hany]

/-! ### Index identity ignores the index name -/

/-- Renaming a live index in the inspected snapshot changes nothing about the
per-index decision: matching is by ordered key tuple (models.py line 266), and
the options comparison uses only the metadata, never the name. -/
theorem processIndexWith_name_irrelevant (oracle : Action → Bool)
    (pre post : List LiveIndexInfo) (li : LiveIndexInfo) (nm : String)
    (coll : String) (spec : IndexSpec) (s : St) :
    processIndexWith oracle (pre ++ { li with name := nm } :: post) coll spec s =
    processIndexWith oracle (pre ++ li :: post) coll spec s := by
  unfold processIndexWith
  rw [List.find?_append, List.find?_append]
  cases hpre : pre.find? (fun x => decide (x.key = spec.key)) with
  | some y => rfl
  | none =>
    dsimp only [Option.none_or]
    by_cases hk : li.key = spec.key
    · rw [List.find?_cons_of_pos _ (by simpa using hk),
        List.find?_cons_of_pos _ (by simpa using hk)]
    · rw [List.find?_cons_of_neg _ (by simpa using hk),
        List.find?_cons_of_neg _ (by simpa using hk)]

/-! ### Concrete scenarios -/

/-- A live `users` collection whose reset-token index has key tuple
`[(reset_token, ascending)]` but no `sparse` option — divergent from the
declared spec, which wants `sparse=true`. -/
def resetIdxDivergent : LiveIndexInfo :=
  { name := "reset_token_1", key := [("reset_token", .ascending)], meta := [("v", .n 2)] }

/-- A live database containing only a `users` collection with the divergent
reset-token index. -/
def exDivergentDb : LiveDb :=
  ⟨[{ name := "users", indexes := [idIndex, resetIdxDivergent], docs := [] }]⟩

/-- The declared reset-token index of the `users` collection. -/
def resetTokenSpec : IndexSpec :=
  { key := [("reset_token", .ascending)], options := [("sparse", .b true)] }

/-- A failure oracle that fails exactly the insert of the second sample
course (`financial_quiz`). -/
def exFailSecondCourse : Action → Bool := fun a =>
  match a with
  | .insertOne "courses" (.course c) => decide (c.id = "financial_quiz")
  | _ => false

/-- A failure oracle that fails exactly the bulk insert into the tax-rates
collection. -/
def exFailRates : Action → Bool := fun a =>
  match a with
  | .insertMany "tax_rates" _ => true
  | _ => false

/-- A live `email` index for the `users` collection, exactly matching the
declared unique email spec. -/
def emailIdxLive : LiveIndexInfo :=
  { name := "email_1", key := [("email", .ascending)]
  , meta := [("v", .n 2), ("unique", .b true)] }

/-- The declared unique email index of the `users` collection. -/
def emailSpec : IndexSpec :=
  { key := [("email", .ascending)], options := [("unique", .b true)] }

/-! ### Claims -/

/-- C1 (amended): when the first key-matching live index of a collection has
divergent stripped options, reconciliation does not skip with a warning — it
falls through to `create_index(keys, **options)`: the trace records the
attempted create-index call for that key tuple, the store rejects it because
a key-matching index is live, the run aborts, and the existing index (indeed
the whole live database) is left unchanged — nothing is dropped or altered. -/
theorem claim_C1 (oracle : Action → Bool) (snap : List LiveIndexInfo)
    (coll : String) (spec : IndexSpec) (s : St) (li : LiveIndexInfo)
    (hok : s.ok = true)
    (hf : snap.find? (fun x => decide (x.key = spec.key)) = some li)
    (hd : dictEqB (stripMeta li.meta) spec.options = false)
    (hany : (indexesOf s.db coll).any (fun x => decide (x.key = spec.key)) = true) :
    processIndexWith oracle snap coll spec s =
      { trace := s.trace ++ [.createIndex coll spec.key spec.options],
        db := s.db, ok := false } :=
  processIndexWith_divergent hok hf hd hany

/-- C1 witness: the divergent reset-token scenario, concretely. -/
theorem claim_C1_witness :
    (([resetIdxDivergent].find? (fun x => decide (x.key = resetTokenSpec.key))
        = some resetIdxDivergent) ∧
      dictEqB (stripMeta resetIdxDivergent.meta) resetTokenSpec.options = false ∧
      (indexesOf exDivergentDb "users").any
        (fun x => decide (x.key = resetTokenSpec.key)) = true) ∧
    processIndexWith (fun _ => false) [resetIdxDivergent] "users" resetTokenSpec
        { trace := [], db := exDivergentDb, ok := true } =
      { trace := [.createIndex "users" resetTokenSpec.key resetTokenSpec.options],
        db := exDivergentDb, ok := false } :=
  ⟨⟨by decide, by decide, by decide⟩,
   claim_C1 (fun _ => false) [resetIdxDivergent] "users" resetTokenSpec
     { trace := [], db := exDivergentDb, ok := true } resetIdxDivergent
     rfl (by decide) (by decide) (by decide)⟩

/-- C1 counterexample: on a live state with a key-matching but
option-divergent reset-token index, the full run does issue a create-index
call for that key tuple (the claim says none is issued, with a
skip-with-warning instead), and reconciliation aborts. -/
theorem claim_C1_counterexample :
    Action.createIndex "users" [("reset_token", .ascending)] [("sparse", .b true)]
      ∈ (reconcile exDivergentDb).trace ∧
    (reconcile exDivergentDb).ok = false := by decide

/-- C2 (amended): on a successful run, each reference collection is seeded
exactly when its document count was zero, with the full canonical set; but
courses are seeded by one `insert_one` per document (three separate actions),
not in one bulk operation — only tax rates and payment locations use a single
`insert_many`. -/
theorem claim_C2 (db : LiveDb) (hok : (reconcile db).ok = true) :
    (∃ t0, (reconcile db).trace = t0 ++ seedTraceOf db) ∧
    docsOf (reconcile db).db "courses" = docsOf db "courses" ++
      (if (docsOf db "courses").length = 0 then SAMPLE_COURSES.map .course else []) ∧
    docsOf (reconcile db).db "tax_rates" = docsOf db "tax_rates" ++
      (if (docsOf db "tax_rates").length = 0 then sample_rates.map .rate else []) ∧
    docsOf (reconcile db).db "payment_locations" = docsOf db "payment_locations" ++
      (if (docsOf db "payment_locations").length = 0 then sample_locations.map .loc else []) := by
  simp only [reconcile] at hok ⊢
  obtain ⟨-, -, hcs, hrs, hls, htr⟩ := runInit_ok_post (fun _ => false) db hok
  exact ⟨⟨(schemaPhase (fun _ => false) db).trace, htr⟩, hcs, hrs, hls⟩

/-- C2 witness: on the empty database the run succeeds and the seed phase of
the trace is three per-course inserts followed by the two bulk inserts. -/
theorem claim_C2_witness :
    (reconcile (⟨[]⟩ : LiveDb)).ok = true ∧
    ((∃ t0, (reconcile (⟨[]⟩ : LiveDb)).trace = t0 ++ seedTraceOf ⟨[]⟩) ∧
      docsOf (reconcile (⟨[]⟩ : LiveDb)).db "courses" = docsOf (⟨[]⟩ : LiveDb) "courses" ++
        (if (docsOf (⟨[]⟩ : LiveDb) "courses").length = 0 then SAMPLE_COURSES.map .course else []) ∧
      docsOf (reconcile (⟨[]⟩ : LiveDb)).db "tax_rates" = docsOf (⟨[]⟩ : LiveDb) "tax_rates" ++
        (if (docsOf (⟨[]⟩ : LiveDb) "tax_rates").length = 0 then sample_rates.map .rate else []) ∧
      docsOf (reconcile (⟨[]⟩ : LiveDb)).db "payment_locations" = docsOf (⟨[]⟩ : LiveDb) "payment_locations" ++
        (if (docsOf (⟨[]⟩ : LiveDb) "payment_locations").length = 0 then sample_locations.map .loc else [])) :=
  ⟨by decide, claim_C2 ⟨[]⟩ (by decide)⟩

/-- C2 counterexample: courses seeding is not all-or-nothing — failing the
second `insert_one` aborts the run but leaves exactly one of the three seed
courses in the collection, a partial subset. -/
theorem claim_C2_counterexample :
    (runInit exFailSecondCourse ⟨[]⟩).ok = false ∧
    (docsOf (runInit exFailSecondCourse ⟨[]⟩).db "courses").length = 1 ∧
    SAMPLE_COURSES.length = 3 := by decide

/-- C3: reconciliation is idempotent — after a successful run, a second run
against the resulting live state issues no create-collection, no
create-index and no insert: its whole trace is the per-index skip actions,
one per declared index, and the live state is unchanged. -/
theorem claim_C3 (db : LiveDb) (hok : (reconcile db).ok = true) :
    reconcile ((reconcile db).db) =
      { trace := allSkips, db := (reconcile db).db, ok := true } ∧
    allSkips.all (fun a => match a with | .skipIndex _ _ => true | _ => false) = true ∧
    allSkips.length = 13 :=
  ⟨reconcile_second_run hok, by decide, by decide⟩

/-- C3 witness: idempotence after reconciling the empty database. -/
theorem claim_C3_witness :
    (reconcile (⟨[]⟩ : LiveDb)).ok = true ∧
    (reconcile ((reconcile (⟨[]⟩ : LiveDb)).db) =
        { trace := allSkips, db := (reconcile (⟨[]⟩ : LiveDb)).db, ok := true } ∧
      allSkips.all (fun a => match a with | .skipIndex _ _ => true | _ => false) = true ∧
      allSkips.length = 13) :=
  ⟨by decide, claim_C3 ⟨[]⟩ (by decide)⟩

/-- C4: against a probe that always fails, the retry loop performs exactly
`max_retries = 3` ping attempts with a fixed `retry_delay = 1` sleep between
consecutive attempts (no backoff growth), then fails fatally, and
initialization never reaches reconciliation. -/
theorem claim_C4 (probe : Nat → Bool) (h : ∀ n, probe n = false) :
    connectRetry probe =
      ([.ping 0, .sleep 1, .ping 1, .sleep 1, .ping 2], false) ∧
    ((connectRetry probe).1.filter
      (fun e => match e with | .ping _ => true | .sleep _ => false)).length = max_retries ∧
    ((connectRetry probe).1.filter
      (fun e => match e with | .ping _ => false | .sleep _ => true)) =
      [.sleep retry_delay, .sleep retry_delay] ∧
    ∀ (oracle : Action → Bool) (db : LiveDb),
      (initDatabase probe oracle db).2 = none := by
  have he : connectRetry probe =
      ([.ping 0, .sleep 1, .ping 1, .sleep 1, .ping 2], false) := by
    simp [connectRetry, connectGo, max_retries, retry_delay, h]
  refine ⟨he, by rw [he]; rfl, by rw [he]; rfl, ?_⟩
  intro oracle db
  unfold initDatabase
  rw [he]
  simp

/-- C4 witness: the always-false probe, concretely. -/
theorem claim_C4_witness :
    ((fun _ : Nat => false) 0 = false ∧ (fun _ : Nat => false) 5 = false) ∧
    (connectRetry (fun _ => false) =
        ([.ping 0, .sleep 1, .ping 1, .sleep 1, .ping 2], false) ∧
      ((connectRetry (fun _ => false)).1.filter
        (fun e => match e with | .ping _ => true | .sleep _ => false)).length = max_retries ∧
      ((connectRetry (fun _ => false)).1.filter
        (fun e => match e with | .ping _ => false | .sleep _ => true)) =
        [.sleep retry_delay, .sleep retry_delay] ∧
      ∀ (oracle : Action → Bool) (db : LiveDb),
        (initDatabase (fun _ => false) oracle db).2 = none) :=
  ⟨⟨rfl, rfl⟩, claim_C4 (fun _ => false) (fun _ => rfl)⟩

/-- C5: a live index matches a declared spec exactly when their ordered key
tuples are equal — the matching predicate is key equality, the index name is
irrelevant to the whole per-index decision — and when the first key match has
equal stripped options the decision is a skip: the trace gains only the skip
action, and the live database is untouched (zero writes). -/
theorem claim_C5 :
    (∀ (li : LiveIndexInfo) (k : KeyTuple),
      ((fun x : LiveIndexInfo => decide (x.key = k)) li = true) ↔ li.key = k) ∧
    (∀ (oracle : Action → Bool) (pre post : List LiveIndexInfo)
      (li : LiveIndexInfo) (nm : String) (coll : String) (spec : IndexSpec) (s : St),
      processIndexWith oracle (pre ++ { li with name := nm } :: post) coll spec s =
      processIndexWith oracle (pre ++ li :: post) coll spec s) ∧
    (∀ (oracle : Action → Bool) (snap : List LiveIndexInfo) (coll : String)
      (spec : IndexSpec) (s : St) (li : LiveIndexInfo), s.ok = true →
      snap.find? (fun x => decide (x.key = spec.key)) = some li →
      dictEqB (stripMeta li.meta) spec.options = true →
      processIndexWith oracle snap coll spec s =
        { s with trace := s.trace ++ [.skipIndex coll spec.key] }) :=
  ⟨fun li k => by simp,
   fun oracle pre post li nm coll spec s =>
     processIndexWith_name_irrelevant oracle pre post li nm coll spec s,
   fun oracle snap coll spec s li hok hf hd => processIndexWith_skip hok hf hd⟩

/-- C5 witness: the exact-match unique email scenario — the decision is a
skip and the state records no write. -/
theorem claim_C5_witness :
    (([emailIdxLive].find? (fun x => decide (x.key = emailSpec.key)) = some emailIdxLive) ∧
      dictEqB (stripMeta emailIdxLive.meta) emailSpec.options = true) ∧
    processIndexWith (fun _ => false) [emailIdxLive] "users" emailSpec
        { trace := [], db := ⟨[]⟩, ok := true } =
      { trace := [.skipIndex "users" emailSpec.key], db := ⟨[]⟩, ok := true } :=
  ⟨⟨by decide, by decide⟩,
   claim_C5.2.2 (fun _ => false) [emailIdxLive] "users" emailSpec
     { trace := [], db := ⟨[]⟩, ok := true } emailIdxLive rfl (by decide) (by decide)⟩

/-- C6: reconciling the empty database succeeds, creates exactly the six
declared collections in declaration order, issues exactly one create-index
per declared spec (13, with the declared keys and options, in order), and
seeds courses with 3, tax rates with 2 and payment locations with 1
document. -/
theorem claim_C6 :
    (reconcile (⟨[]⟩ : LiveDb)).ok = true ∧
    ((reconcile (⟨[]⟩ : LiveDb)).trace.filter (fun a => a.isCreateColl)) =
      [.createCollection "users", .createCollection "records",
       .createCollection "cashflows", .createCollection "inventory",
       .createCollection "coin_transactions", .createCollection "audit_logs"] ∧
    ((reconcile (⟨[]⟩ : LiveDb)).trace.filterMap
        (fun a => match a with
          | .createIndex c k o => some (c, k, o)
          | _ => none)) =
      (collection_schemas.map
        (fun c => c.indexes.map (fun spec => (c.name, spec.key, spec.options)))).join ∧
    (docsOf (reconcile (⟨[]⟩ : LiveDb)).db "courses").length = 3 ∧
    (docsOf (reconcile (⟨[]⟩ : LiveDb)).db "tax_rates").length = 2 ∧
    (docsOf (reconcile (⟨[]⟩ : LiveDb)).db "payment_locations").length = 1 := by
  decide

/-- C7: for every live state (and failure environment), the schema phase's
emitted trace is the concatenation of one segment per declared collection, in
declaration order (the declared names are distinct, so segments do not mix):
every action of a segment concerns that collection, and a create-collection
action can only stand at the head of its segment, before every create-index
of that collection. -/
theorem claim_C7 (oracle : Action → Bool) (db : LiveDb) :
    (collection_schemas.map (fun c => c.name)).Nodup ∧
    ∃ ts : List (List Action), (schemaPhase oracle db).trace = ts.join ∧
      List.Forall₂ SegOk collection_schemas ts := by
  refine ⟨by decide, ?_⟩
  obtain ⟨ts, h, hsegs⟩ :=
    foldColls_trace oracle (collNames db) collection_schemas
      { trace := [], db := db, ok := true }
  refine ⟨ts, ?_, hsegs⟩
  unfold schemaPhase
  rw [h]
  simp

/-- C8: a failed action aborts the run — once the state is failed, no
further per-collection reconciliation step and no seeding step executes (both
are the identity), and an aborted run's trace ends exactly at the failed
action, with nothing after it. -/
theorem claim_C8 :
    (∀ (oracle : Action → Bool) (names0 : List String) (c : CollectionSpec) (s : St),
      s.ok = false → processColl oracle names0 c s = s) ∧
    (∀ (oracle : Action → Bool) (s : St), s.ok = false → seedPhase oracle s = s) ∧
    (∀ (oracle : Action → Bool) (db : LiveDb), (runInit oracle db).ok = false →
      ∃ pre a, (runInit oracle db).trace = pre ++ [a]) :=
  ⟨fun oracle names0 c s h => processColl_not_ok h oracle names0 c,
   fun oracle s h => seedPhase_not_ok h oracle,
   fun oracle db h => runInit_endsAtFailure oracle db h⟩

/-- C8 witness: a seed-insertion failure (tax rates) aborts startup on the
empty database, the trace ends at the failed action, and a failed state is
absorbing for both reconciliation and seeding. -/
theorem claim_C8_witness :
    (runInit exFailRates ⟨[]⟩).ok = false ∧
    (∃ pre a, (runInit exFailRates ⟨[]⟩).trace = pre ++ [a]) ∧
    processColl exFailRates [] { name := "users", indexes := [] }
        { trace := [], db := ⟨[]⟩, ok := false } =
      { trace := [], db := ⟨[]⟩, ok := false } ∧
    seedPhase exFailRates { trace := [], db := ⟨[]⟩, ok := false } =
      { trace := [], db := ⟨[]⟩, ok := false } :=
  ⟨by decide,
   claim_C8.2.2 exFailRates ⟨[]⟩ (by decide),
   claim_C8.1 exFailRates [] { name := "users", indexes := [] }
     { trace := [], db := ⟨[]⟩, ok := false } rfl,
   claim_C8.2.1 exFailRates { trace := [], db := ⟨[]⟩, ok := false } rfl⟩

/-- The usage record `log_tool_usage` builds (models.py lines 512–518). -/
def mkToolUsage (tool_name : String) (user_id session_id action : Option String)
    (now : Nat) : ToolUsageDoc :=
  { tool_name := tool_name, user_id := user_id, session_id := session_id
  , action := action, timestamp := now }

/-- C9: `log_tool_usage` never propagates a failure — whether the insert of
the usage record succeeds or the database fails, the function returns
normally: the collection unchanged on failure, the record appended on
success. -/
theorem claim_C9 (fails : Bool) (docs : List ToolUsageDoc) (tool_name : String)
    (user_id session_id action : Option String) (now : Nat) :
    log_tool_usage fails docs tool_name user_id session_id action now =
      if fails then docs
      else docs ++ [mkToolUsage tool_name user_id session_id action now] := by
  cases fails <;> rfl

/-- C10: email lookup round-trips modulo case — after a successful
`create_user` with email `e`, `get_user_by_email` with any casing variant of
`e` finds that user and returns a `User` whose email is `e` lowercased. -/
theorem claim_C10 (hash : String → String) (now : Nat) (users : List UserDoc)
    (ud : UserData) (u : User) (users' : List UserDoc) (e' : String)
    (hc : create_user hash now users ud = .ok (u, users'))
    (he : lowerStr e' = lowerStr ud.email) :
    ∃ u', get_user_by_email users' e' = some u' ∧
      u'.email = lowerStr ud.email ∧ u'.id = u.id := by
  unfold create_user at hc
  cases hph : (match ud.password with
      | some p => some (hash p)
      | none => ud.password_hash) with
  | none =>
    rw [hph] at hc
    cases hc
  | some password =>
    rw [hph] at hc
    dsimp only at hc
    by_cases hdup : users.any (fun d =>
        decide (d.id = lowerStr (ud.username.getD (localPart ud.email))) ||
        decide (d.email = lowerStr ud.email)) = true
    · rw [if_pos hdup] at hc
      cases hc
    · rw [if_neg hdup] at hc
      simp only [Except.ok.injEq, Prod.mk.injEq] at hc
      obtain ⟨hu, husers⟩ := hc
      subst husers
      unfold get_user_by_email
      have hnone : users.find? (fun d => decide (d.email = lowerStr e')) = none := by
        apply find?_eq_none_of_any_false
        rw [List.any_eq_false]
        intro d hd
        have := List.any_eq_false.mp (eq_false_of_ne_true hdup) d hd
        simp only [Bool.or_eq_true, decide_eq_true_eq, not_or] at this
        simp only [decide_eq_true_eq, he]
        exact this.2
      rw [List.find?_append, hnone]
      simp only [Option.none_or, List.find?]
      rw [show (decide (lowerStr ud.email = lowerStr e')) = true from by
        simp [he]]
      refine ⟨_, rfl, rfl, ?_⟩
      rw [← hu]

/-- Example input for `create_user`: a mixed-case email and username. -/
def exUserData : UserData :=
  { email := "Alice@Example.Com", username := some "Alice", password := some "pw"
  , password_hash := none, role := none, display_name := none, is_admin := none
  , setup_complete := none, coin_balance := none, lang := none, dark_mode := none
  , created_at := none }

/-- The `User` that `create_user` returns for `exUserData`. -/
def exUser : User :=
  { id := "alice", email := "alice@example.com", username := "alice"
  , role := "personal", display_name := "alice", is_admin := false
  , setup_complete := false, coin_balance := 10, language := "en"
  , dark_mode := false }

/-- The `users` document `create_user` stores for `exUserData`. -/
def exUserDoc : UserDoc :=
  { id := "alice", email := "alice@example.com", password := "pw"
  , role := "personal", display_name := "alice", is_admin := false
  , setup_complete := false, coin_balance := 10, language := "en"
  , dark_mode := false, created_at := 0 }

/-- C10 witness: the round trip concretely, querying with a different casing
of the stored email. -/
theorem claim_C10_witness :
    (create_user (fun p => p) 0 [] exUserData = .ok (exUser, [exUserDoc]) ∧
      lowerStr "ALICE@example.com" = lowerStr exUserData.email) ∧
    (∃ u', get_user_by_email [exUserDoc] "ALICE@example.com" = some u' ∧
      u'.email = lowerStr exUserData.email ∧ u'.id = exUser.id) :=
  ⟨⟨rfl, rfl⟩,
   claim_C10 (fun p => p) 0 [] exUserData exUser [exUserDoc] "ALICE@example.com"
     rfl rfl⟩

end Ficore
